import Mathlib

/-!
# pepr3d text tool: placement geometry of `src/tools/TextEditor.cpp`

A shallow embedding of `TextEditor` (rescaling, tangent basis, placement in the
world, preview mesh, paint commit) and of the `glm` vector functions it calls.
`float` is embedded as an exact ordered field: the algebraic part is generic
in the field (and runs on `ℚ`), the part that needs `sqrt`, `cos` and `sin`
lives on `ℝ`.
-/

namespace Pepr3d

/-! ## glm vectors and matrices -/

/-- The three floats of a `glm::vec3`. -/
@[ext]
structure Vec3 (α : Type) where
  x : α
  y : α
  z : α
deriving DecidableEq

/-- The four floats of a `glm::vec4`, used for colours. -/
structure Vec4 (α : Type) where
  r : α
  g : α
  b : α
  a : α
deriving DecidableEq

/-- A `glm::mat3`, stored by columns as in glm: `glm::mat3(c0, c1, c2)`. -/
structure Mat3 (α : Type) where
  c0 : Vec3 α
  c1 : Vec3 α
  c2 : Vec3 α
deriving DecidableEq

namespace Vec3

variable {α : Type}

/-- Componentwise `operator+` of glm. -/
def add [Add α] (u v : Vec3 α) : Vec3 α := ⟨u.x + v.x, u.y + v.y, u.z + v.z⟩

/-- Componentwise `operator-` of glm. -/
def sub [Sub α] (u v : Vec3 α) : Vec3 α := ⟨u.x - v.x, u.y - v.y, u.z - v.z⟩

/-- Unary minus of glm. -/
def neg [Neg α] (v : Vec3 α) : Vec3 α := ⟨-v.x, -v.y, -v.z⟩

/-- Vector times scalar, `v * s` and `v *= s` of glm. -/
def scale [Mul α] (v : Vec3 α) (s : α) : Vec3 α := ⟨v.x * s, v.y * s, v.z * s⟩

instance [Add α] : Add (Vec3 α) := ⟨add⟩
instance [Sub α] : Sub (Vec3 α) := ⟨sub⟩
instance [Neg α] : Neg (Vec3 α) := ⟨neg⟩

end Vec3

section Glm

variable {α : Type}

/-- The function `glm::dot` on `vec3`. -/
def dot [Add α] [Mul α] (u v : Vec3 α) : α := u.x * v.x + u.y * v.y + u.z * v.z

/-- The function `glm::cross`. -/
def cross [Sub α] [Mul α] (u v : Vec3 α) : Vec3 α :=
  ⟨u.y * v.z - v.y * u.z, u.z * v.x - v.z * u.x, u.x * v.y - v.x * u.y⟩

/-- The product `glm::mat3 * glm::vec3`: `m[i][j]` is entry `j` of column `i`. -/
def Mat3.mulVec [Add α] [Mul α] (m : Mat3 α) (v : Vec3 α) : Vec3 α :=
  ⟨m.c0.x * v.x + m.c1.x * v.y + m.c2.x * v.z,
   m.c0.y * v.x + m.c1.y * v.y + m.c2.y * v.z,
   m.c0.z * v.x + m.c1.z * v.y + m.c2.z * v.z⟩

end Glm

/-- The function `glm::length`: `sqrt(dot(v, v))`. -/
noncomputable def length (v : Vec3 ℝ) : ℝ := Real.sqrt (dot v v)

/-- The function `glm::normalize`: `v * inversesqrt(dot(v, v))`. On the zero
vector glm yields NaN; here `1 / 0 = 0`, so claims about a normalised vector
are stated together with `dot v v ≠ 0`. -/
noncomputable def normalize (v : Vec3 ℝ) : Vec3 ℝ := v.scale (1 / Real.sqrt (dot v v))

/-- The function `glm::radians`: degrees to radians. glm multiplies by the
float constant for `π / 180`; the embedding uses `π / 180` itself. -/
noncomputable def radians (degrees : ℝ) : ℝ := degrees * (Real.pi / 180)

/-- The 3x3 part of `glm::rotate(angle, axis)` (the matrix `Rotate` of
`glm::rotate(mat4(1), angle, axis)`), by columns. The axis is normalised by glm. -/
noncomputable def rotationMatrix (angle : ℝ) (v : Vec3 ℝ) : Mat3 ℝ :=
  let c := Real.cos angle
  let s := Real.sin angle
  let axis := normalize v
  let temp := axis.scale (1 - c)
  ⟨⟨c + temp.x * axis.x, temp.x * axis.y + s * axis.z, temp.x * axis.z - s * axis.y⟩,
   ⟨temp.y * axis.x - s * axis.z, c + temp.y * axis.y, temp.y * axis.z + s * axis.x⟩,
   ⟨temp.z * axis.x + s * axis.y, temp.z * axis.y - s * axis.x, c + temp.z * axis.z⟩⟩

/-- The function `glm::rotate(v, angle, normal)` of `glm/gtx/rotate_vector.hpp`:
`mat3(glm::rotate(angle, normal)) * v`. -/
noncomputable def rotate (v : Vec3 ℝ) (angle : ℝ) (normal : Vec3 ℝ) : Vec3 ℝ :=
  (rotationMatrix angle normal).mulVec v

/-! ## Glyph geometry -/

/-- A `FontRasterizer::Tri`: the three corners of a glyph triangle. -/
structure Tri (α : Type) where
  a : Vec3 α
  b : Vec3 α
  c : Vec3 α
deriving DecidableEq

/-- A text: one vector of triangles per letter
(`std::vector<std::vector<FontRasterizer::Tri>>`). -/
abbrev Glyphs (α : Type) := List (List (Tri α))

/-- The corners of a triangle, in the order `a`, `b`, `c`. -/
def Tri.corners {α : Type} (t : Tri α) : List (Vec3 α) := [t.a, t.b, t.c]

/-- All vertices of all triangles of all letters, in iteration order. -/
def vertices {α : Type} (text : Glyphs α) : List (Vec3 α) :=
  (text.flatten).flatMap Tri.corners

/-- Apply one function to the three corners of a triangle. -/
def Tri.map {α : Type} (f : Vec3 α → Vec3 α) (t : Tri α) : Tri α := ⟨f t.a, f t.b, f t.c⟩

/-- Apply one function to every vertex of a text, keeping its shape. -/
def mapVertices {α : Type} (f : Vec3 α → Vec3 α) (text : Glyphs α) : Glyphs α :=
  text.map (fun letter => letter.map (Tri.map f))

/-! ## rescaleText -/

section Rescale

variable {α : Type} [LinearOrderedField α]

/-- The constant `std::numeric_limits<float>::min()`: the smallest positive
normal float, `2^-126`. -/
def FLT_MIN : α := 1 / 2 ^ 126

/-- The constant `std::numeric_limits<float>::max()`: `(2^24 - 1) * 2^104`. -/
def FLT_MAX : α := (2 ^ 24 - 1) * 2 ^ 104

/-- The pairs `min` and `max` of `rescaleText` (`first` is x, `second` is y). -/
structure MinMax (α : Type) where
  min : α × α
  max : α × α
deriving DecidableEq

/-- The initial value of the pairs: `max = (float min, float min)`,
`min = (float max, float max)`. -/
def initMinMax : MinMax α := ⟨(FLT_MAX, FLT_MAX), (FLT_MIN, FLT_MIN)⟩

/-- The lambda `updateMinMax` of `rescaleText`. -/
def updateMinMax (mm : MinMax α) (pt : Vec3 α) : MinMax α :=
  let maxFirst := if pt.x > mm.max.1 then pt.x else mm.max.1
  let maxSecond := if pt.y > mm.max.2 then pt.y else mm.max.2
  let minFirst := if pt.x < mm.min.1 then pt.x else mm.min.1
  let minSecond := if pt.y < mm.min.2 then pt.y else mm.min.2
  ⟨(minFirst, minSecond), (maxFirst, maxSecond)⟩

/-- First loop of `rescaleText`: every corner is multiplied by the font scale. -/
def scaleTri (fontScale : α) (t : Tri α) : Tri α :=
  ⟨t.a.scale fontScale, t.b.scale fontScale, t.c.scale fontScale⟩

/-- First loop of `rescaleText` over the whole text. -/
def scaleText (fontScale : α) (text : Glyphs α) : Glyphs α :=
  text.map (fun letter => letter.map (scaleTri fontScale))

/-- Second loop of `rescaleText`: `updateMinMax` on `t.a`, `t.b`, `t.c` of
every triangle of every letter, starting from the initial pairs. -/
def textBounds (text : Glyphs α) : MinMax α :=
  text.foldl (fun acc letter =>
    letter.foldl (fun acc t => updateMinMax (updateMinMax (updateMinMax acc t.a) t.b) t.c) acc)
    initMinMax

/-- Third loop of `rescaleText` on one corner: recentre x and y, set z to 0,
then `y *= -1`. -/
def recenter (mm : MinMax α) (p : Vec3 α) : Vec3 α :=
  ⟨p.x - mm.min.1 - mm.max.1 / 2, (p.y - mm.min.2 - mm.max.2 / 2) * (-1), 0⟩

/-- The method `TextEditor::rescaleText`, as a function of `mFontScale` and
the text it updates in place. -/
def rescaleText (fontScale : α) (result : Glyphs α) : Glyphs α :=
  let scaled := scaleText fontScale result
  let mm := textBounds scaled
  scaled.map (fun letter => letter.map (Tri.map (recenter mm)))

end Rescale

/-! ## Editor state -/

/-- A `ci::Ray`: origin and direction. -/
structure Ray (α : Type) where
  origin : Vec3 α
  direction : Vec3 α

/-- The preview buffers of `ModelView` and its `getMaxSize()`. -/
structure ModelView (α : Type) where
  previewTriangles : List (Vec3 α)
  previewIndices : List Nat
  previewNormals : List (Vec3 α)
  previewColors : List (Vec4 α)
  maxSize : α

/-- What the text tool reads from `Geometry`: `getTriangle(i).getNormal()` and
the active colour of its colour manager. -/
structure Geometry (α : Type) where
  triangleNormal : Nat → Vec3 α
  activeColor : Vec4 α
  activeColorIndex : Nat

/-- A `CmdPaintText(ray, text, color)` handed to the command manager. -/
structure CmdPaintText (α : Type) where
  ray : Ray α
  text : Glyphs α
  color : Nat

/-- What the text tool uses of `MainApplication`: the model view, the current
geometry and the commands executed so far by the command manager. -/
structure MainApplication (α : Type) where
  modelView : ModelView α
  geometry : Geometry α
  executed : List (CmdPaintText α)

/-- A `FontRasterizer` once constructed: `isValid()` and `rasterizeText`,
which may throw. -/
structure FontRasterizer (α : Type) where
  isValid : Bool
  rasterizeText : String → Int → Int → Except String (Glyphs α)

/-- The members of `TextEditor`. `TEXT_DISTANCE_SCALE` is a constant of the
class declared in the header, taken as a parameter; `openFont` stands for the
constructor `FontRasterizer(path)`, which may throw. -/
structure TextEditor (α : Type) where
  mApplication : MainApplication α
  TEXT_DISTANCE_SCALE : α
  openFont : String → Except String (FontRasterizer α)
  mFont : String
  mFontPath : String
  mText : String
  mFontSize : Int
  mBezierSteps : Int
  mFontScale : α
  mTextRotation : α
  mCurrentRay : Ray α
  mCurrentIntersection : Option Nat
  mCurrentIntersectionPoint : Vec3 α
  mSelectedRay : Ray α
  mSelectedIntersection : Option Nat
  mSelectedIntersectionPoint : Vec3 α
  mTriangulatedText : Glyphs α
  mRenderedText : Glyphs α

/-- Modelled from the spec: the macro `P_ASSERT` is defined outside `src/`; an
assertion that fails is fatal ("programmer-error invariant violations"), which
is embedded as `none`. -/
def P_ASSERT (c : Prop) [Decidable c] : Option Unit := if c then some () else none

/-- Modelled from the spec: `ModelView::resetPreview` is defined outside
`src/`; it clears the preview buffers ("preview cleared"). -/
def ModelView.resetPreview {α : Type} (mv : ModelView α) : ModelView α :=
  { mv with previewTriangles := [], previewIndices := [], previewNormals := [],
            previewColors := [] }

/-- Whether all four preview buffers are empty. -/
def ModelView.previewEmpty {α : Type} (mv : ModelView α) : Prop :=
  mv.previewTriangles = [] ∧ mv.previewIndices = [] ∧ mv.previewNormals = [] ∧
    mv.previewColors = []

/-- The method `TextEditor::createPreviewMesh`: reset the preview, push the
three corners of every rendered triangle, then one index, one normal `(1,1,0)`
and the active colour per pushed vertex (the count goes through `uint32_t`). -/
def createPreviewMesh {α : Type} [One α] [Zero α] (ed : TextEditor α) : TextEditor α :=
  let modelView := ed.mApplication.modelView.resetPreview
  let previewTriangles := modelView.previewTriangles ++ vertices ed.mRenderedText
  let triangleCount := previewTriangles.length % 2 ^ 32
  let currentColor := ed.mApplication.geometry.activeColor
  { ed with mApplication := { ed.mApplication with modelView :=
      { modelView with
        previewTriangles := previewTriangles
        previewIndices := modelView.previewIndices ++ (List.range triangleCount).map (· % 2 ^ 32)
        previewNormals := modelView.previewNormals ++ List.replicate triangleCount ⟨1, 1, 0⟩
        previewColors := modelView.previewColors ++ List.replicate triangleCount currentColor } } }

/-- The method `TextEditor::triangulateText`: empty without a font path and
when the rasterizer throws; a failed `P_ASSERT(isValid())` is fatal. -/
def triangulateText {α : Type} (ed : TextEditor α) : Option (Glyphs α) :=
  if ed.mFontPath = "" then some []
  else
    match ed.openFont ed.mFontPath with
    | .error _ => some []
    | .ok fontTriangulate =>
      (P_ASSERT (fontTriangulate.isValid = true)).bind fun _ =>
        match fontTriangulate.rasterizeText ed.mText ed.mFontSize ed.mBezierSteps with
        | .error _ => some []
        | .ok result => some result

/-! ## Tangent basis and placement -/

/-- The vector `upVector` of `getPlaneBaseVector`. -/
def upVector {α : Type} [Zero α] [One α] : Vec3 α := ⟨0, 0, 1⟩

/-- The choice of `otherDirection` in `getPlaneBaseVector`: world right when
the direction points upwards or downwards, world up otherwise. -/
noncomputable def otherDirection (direction : Vec3 ℝ) : Vec3 ℝ :=
  if |dot direction upVector| > 0.98 then ⟨1, 0, 0⟩ else upVector

/-- The vector `baseVector` of `getPlaneBaseVector`. -/
noncomputable def baseVector (direction : Vec3 ℝ) : Vec3 ℝ :=
  cross direction (otherDirection direction)

/-- The argument of the final `glm::normalize` in `getPlaneBaseVector`. -/
noncomputable def rotatedBaseVector (ed : TextEditor ℝ) (direction : Vec3 ℝ) : Vec3 ℝ :=
  rotate (baseVector direction) (radians ed.mTextRotation) direction

/-- The asserted precondition of `getPlaneBaseVector`: "Is normalized". -/
def isNormalized (direction : Vec3 ℝ) : Prop := |length direction - 1| < 0.01

/-- The method `TextEditor::getPlaneBaseVector`. -/
noncomputable def getPlaneBaseVector (ed : TextEditor ℝ) (direction : Vec3 ℝ) :
    Option (Vec3 ℝ) :=
  (P_ASSERT (|length direction - 1| < 0.01)).bind fun _ =>
    some (normalize (rotatedBaseVector ed direction))

/-- The method `TextEditor::getPreviewOrigin`. -/
def getPreviewOrigin {α : Type} [Sub α] [Mul α] (ed : TextEditor α) (direction : Vec3 α) :
    Option (Vec3 α) :=
  (P_ASSERT (ed.mSelectedIntersection.isSome = true)).bind fun _ =>
    let distFromModel := ed.TEXT_DISTANCE_SCALE * ed.mApplication.modelView.maxSize
    some (ed.mSelectedIntersectionPoint - direction.scale distFromModel)

/-- The expression `origin + rotationMat * v` of the loop of `rotateText`. -/
def placeVertex {α : Type} [Add α] [Mul α] (origin : Vec3 α) (rotationMat : Mat3 α)
    (v : Vec3 α) : Vec3 α :=
  origin + rotationMat.mulVec v

/-- The method `TextEditor::rotateText`, as a function of the editor and of
the text it updates in place. -/
noncomputable def rotateText (ed : TextEditor ℝ) (text : Glyphs ℝ) : Option (Glyphs ℝ) :=
  if text.isEmpty then some text
  else
    match ed.mSelectedIntersection with
    | none => none
    | some sel =>
      let direction := normalize (-(ed.mApplication.geometry.triangleNormal sel))
      (getPreviewOrigin ed direction).bind fun origin =>
      (getPlaneBaseVector ed direction).bind fun planeBase1 =>
        let planeBase2 := cross planeBase1 direction
        let rotationMat : Mat3 ℝ := ⟨planeBase1, planeBase2, direction⟩
        some (text.map fun letter => letter.map fun tri =>
          ⟨placeVertex origin rotationMat tri.a, placeVertex origin rotationMat tri.b,
           placeVertex origin rotationMat tri.c⟩)

/-- The method `TextEditor::updateTextPreview`. -/
noncomputable def updateTextPreview (ed : TextEditor ℝ) : Option (TextEditor ℝ) :=
  let ed := { ed with mRenderedText := ed.mTriangulatedText }
  if ed.mSelectedIntersection.isNone then some ed
  else
    let ed := { ed with mRenderedText := rescaleText ed.mFontScale ed.mRenderedText }
    (rotateText ed ed.mRenderedText).bind fun placed =>
      some (createPreviewMesh { ed with mRenderedText := placed })

/-- The method `TextEditor::generateAndUpdate`. -/
noncomputable def generateAndUpdate (ed : TextEditor ℝ) : Option (TextEditor ℝ) :=
  (triangulateText ed).bind fun glyphs =>
    updateTextPreview { ed with mTriangulatedText := glyphs }

/-! ## Events -/

/-- Modelled from the spec: `MainApplication::enqueueSlowOperation` is defined
outside `src/`; the deferred operation runs, then its completion callback
runs once ("after a successful commit, the preview state is cleared exactly
once"). -/
def enqueueSlowOperation {σ : Type} (operation onComplete : σ → σ) (s : σ) : σ :=
  onComplete (operation s)

/-- The method `TextEditor::paintText`: nothing without rendered text or
without selection; otherwise the command manager executes
`CmdPaintText(ray, mRenderedText, color)`, and the completion callback clears
the rendered text and resets the preview. -/
def paintText {α : Type} [Neg α] (ed : TextEditor α) : TextEditor α :=
  match ed.mSelectedIntersection with
  | none => ed
  | some sel =>
    if ed.mRenderedText.isEmpty then ed
    else
      let geometry := ed.mApplication.geometry
      let color := geometry.activeColorIndex
      let ray : Ray α := { ed.mSelectedRay with direction := -(geometry.triangleNormal sel) }
      enqueueSlowOperation
        (fun ed : TextEditor α =>
          let command : CmdPaintText α := { ray := ray, text := ed.mRenderedText, color := color }
          { ed with mApplication := { ed.mApplication with
              executed := ed.mApplication.executed ++ [command] } })
        (fun ed : TextEditor α =>
          { ed with
            mRenderedText := []
            mApplication := { ed.mApplication with
              modelView := ed.mApplication.modelView.resetPreview } })
        ed

/-- The method `TextEditor::onModelViewMouseMove`; `hit` and `point` are what
`Geometry::intersectMesh` returns and writes for the ray under the mouse. -/
def onModelViewMouseMove {α : Type} (ed : TextEditor α) (ray : Ray α) (hit : Option Nat)
    (point : Vec3 α) : TextEditor α :=
  { ed with mCurrentRay := ray, mCurrentIntersection := hit, mCurrentIntersectionPoint := point }

/-- The method `TextEditor::onModelViewMouseDown`. -/
noncomputable def onModelViewMouseDown (ed : TextEditor ℝ) (isLeft : Bool) :
    Option (TextEditor ℝ) :=
  if !isLeft then some ed
  else if ed.mCurrentIntersection.isSome then
    generateAndUpdate { ed with
      mSelectedIntersection := ed.mCurrentIntersection
      mSelectedIntersectionPoint := ed.mCurrentIntersectionPoint
      mSelectedRay := ed.mCurrentRay }
  else some ed

/-- What can happen to the tool: the two mouse callbacks and the widgets of
`drawToSidePane` that report a change. -/
inductive Event where
  | mouseMove (ray : Ray ℝ) (hit : Option Nat) (point : Vec3 ℝ)
  | mouseDown (isLeft : Bool)
  | loadFont (path font : String)
  | fontSize (value : Int)
  | bezierSteps (value : Int)
  | text (value : String)
  | fontScale (value : ℝ)
  | textRotation (value : ℝ)
  | paint

/-- One event handled by the tool, following `onModelViewMouseMove`,
`onModelViewMouseDown` and the branches of `drawToSidePane`. -/
noncomputable def step (ed : TextEditor ℝ) : Event → Option (TextEditor ℝ)
  | .mouseMove ray hit point => some (onModelViewMouseMove ed ray hit point)
  | .mouseDown isLeft => onModelViewMouseDown ed isLeft
  | .loadFont path font => some { ed with mFontPath := path, mFont := font }
  | .fontSize value => generateAndUpdate { ed with mFontSize := value }
  | .bezierSteps value => generateAndUpdate { ed with mBezierSteps := value }
  | .text value =>
    let ed := { ed with mText := value }
    if ed.mSelectedIntersection.isSome then generateAndUpdate ed else some ed
  | .fontScale value => updateTextPreview { ed with mFontScale := value }
  | .textRotation value => updateTextPreview { ed with mTextRotation := value }
  | .paint => some (paintText ed)

/-- A sequence of events, stopping at a fatal assertion. -/
noncomputable def run (ed : TextEditor ℝ) : List Event → Option (TextEditor ℝ)
  | [] => some ed
  | e :: es => (step ed e).bind fun ed => run ed es

/-- An event that makes a new selection: a left mouse-down while the ray under
the mouse hits the mesh. -/
def makesSelection (ed : TextEditor ℝ) : Event → Prop
  | .mouseDown isLeft => isLeft = true ∧ ed.mCurrentIntersection.isSome = true
  | _ => False

/-! ## Sample data -/

/-- One glyph made of the single triangle `(0,0)`, `(1,0)`, `(0,1)`. -/
def unitTriangleText {α : Type} [Zero α] [One α] : Glyphs α :=
  [[{ a := ⟨0, 0, 0⟩, b := ⟨1, 0, 0⟩, c := ⟨0, 1, 0⟩ }]]

/-- A valid font whose rasterizer returns the unit triangle for every string. -/
def unitTriangleFont {α : Type} [Zero α] [One α] : FontRasterizer α :=
  { isValid := true, rasterizeText := fun _ _ _ => .ok unitTriangleText }

/-- An editor before any pick: every triangle of the mesh has normal
`(0,0,1)`, `TEXT_DISTANCE_SCALE * getMaxSize()` is 2, scale 1, rotation 0,
nothing triangulated, nothing rendered, empty preview. -/
def startEditor {α : Type} [Field α] : TextEditor α :=
  { mApplication :=
      { modelView := { previewTriangles := [], previewIndices := [], previewNormals := [],
                       previewColors := [], maxSize := 4 }
        geometry := { triangleNormal := fun _ => ⟨0, 0, 1⟩, activeColor := ⟨1, 0, 0, 1⟩,
                      activeColorIndex := 0 }
        executed := [] }
    TEXT_DISTANCE_SCALE := 1 / 2
    openFont := fun _ => .ok unitTriangleFont
    mFont := "OpenSans-Regular.ttf"
    mFontPath := "fonts/OpenSans-Regular.ttf"
    mText := "a"
    mFontSize := 12
    mBezierSteps := 3
    mFontScale := 1
    mTextRotation := 0
    mCurrentRay := { origin := ⟨0, 0, 1⟩, direction := ⟨0, 0, -1⟩ }
    mCurrentIntersection := none
    mCurrentIntersectionPoint := ⟨0, 0, 0⟩
    mSelectedRay := { origin := ⟨0, 0, 1⟩, direction := ⟨0, 0, -1⟩ }
    mSelectedIntersection := none
    mSelectedIntersectionPoint := ⟨0, 0, 0⟩
    mTriangulatedText := []
    mRenderedText := [] }

/-- The start editor after triangle 0 was picked at the surface point
`(0,0,0)` and the unit triangle was triangulated. -/
def pickedEditor {α : Type} [Field α] : TextEditor α :=
  { (startEditor : TextEditor α) with
    mCurrentIntersection := some 0
    mSelectedIntersection := some 0
    mTriangulatedText := unitTriangleText }

/-- The unit triangle placed for the surface point `(0,0,0)`, triangle normal
`(0,0,1)` and offset distance 2. -/
def placedUnitTriangle {α : Type} [Field α] : Glyphs α :=
  [[{ a := ⟨1 / 2, 1 / 2, 2⟩, b := ⟨1 / 2, -1 / 2, 2⟩, c := ⟨-1 / 2, 1 / 2, 2⟩ }]]

/-! ## Bounding box, as the specification words it -/

/-- The value `m` is the minimum of `f` over the vertices `vs`: it is attained
and it is a lower bound. -/
def isMinOf {α : Type} [LE α] (f : Vec3 α → α) (vs : List (Vec3 α)) (m : α) : Prop :=
  (∃ v ∈ vs, f v = m) ∧ ∀ v ∈ vs, m ≤ f v

/-- The value `m` is the maximum of `f` over the vertices `vs`: it is attained
and it is an upper bound. -/
def isMaxOf {α : Type} [LE α] (f : Vec3 α → α) (vs : List (Vec3 α)) (m : α) : Prop :=
  (∃ v ∈ vs, f v = m) ∧ ∀ v ∈ vs, f v ≤ m

/-- The output vertex of `rescaleText` as the specification words it:
`(s*x - minX - maxX/2, -(s*y - minY - maxY/2), 0)`. -/
def rescaledVertex {α : Type} [Field α] (s minX maxX minY maxY : α) (v : Vec3 α) : Vec3 α :=
  ⟨s * v.x - minX - maxX / 2, -(s * v.y - minY - maxY / 2), 0⟩

/-- One glyph whose single triangle has only negative coordinates. -/
def negativeTriangleText {α : Type} [Field α] : Glyphs α :=
  [[{ a := ⟨-2, -1, 0⟩, b := ⟨-1, -1, 0⟩, c := ⟨-1, -2, 0⟩ }]]

/-- One glyph whose single triangle has the subnormal float `2^-127` as its
largest x and y. -/
def tinyTriangleText {α : Type} [Field α] : Glyphs α :=
  [[{ a := ⟨0, 0, 0⟩, b := ⟨1 / 2 ^ 127, 0, 0⟩, c := ⟨0, 1 / 2 ^ 127, 0⟩ }]]

/-- The picked editor once `updateTextPreview` has placed the unit triangle
and rebuilt the preview mesh. -/
def previewedEditor {α : Type} [Field α] : TextEditor α :=
  createPreviewMesh { (pickedEditor : TextEditor α) with mRenderedText := placedUnitTriangle }

/-- The previewed editor after `paintText`. -/
def committedEditor {α : Type} [Field α] : TextEditor α := paintText previewedEditor

/-- The ray under the mouse in the sample runs. -/
def sampleRay {α : Type} [Field α] : Ray α := { origin := ⟨0, 0, 1⟩, direction := ⟨0, 0, -1⟩ }

/-- An event that rebuilds the preview: a new selection (left mouse-down on
a hit) or a parameter change that calls `generateAndUpdate` or
`updateTextPreview`. -/
def regeneratesPreview (ed : TextEditor ℝ) : Event → Prop
  | .mouseDown isLeft => isLeft = true ∧ ed.mCurrentIntersection.isSome = true
  | .fontSize _ => True
  | .bezierSteps _ => True
  | .text _ => ed.mSelectedIntersection.isSome = true
  | .fontScale _ => True
  | .textRotation _ => True
  | _ => False

/-- A sequence of events none of which, in the state it meets, rebuilds the
preview. -/
def staysQuiet : TextEditor ℝ → List Event → Prop
  | _, [] => True
  | ed, e :: es => ¬ regeneratesPreview ed e ∧ ∀ ed', step ed e = some ed' → staysQuiet ed' es

/-! ## Vector algebra -/

theorem Vec3.add_def {α : Type} [Add α] (u v : Vec3 α) :
    u + v = ⟨u.x + v.x, u.y + v.y, u.z + v.z⟩ := rfl

theorem Vec3.sub_def {α : Type} [Sub α] (u v : Vec3 α) :
    u - v = ⟨u.x - v.x, u.y - v.y, u.z - v.z⟩ := rfl

theorem Vec3.neg_def {α : Type} [Neg α] (v : Vec3 α) : -v = ⟨-v.x, -v.y, -v.z⟩ := rfl

theorem dot_self_nonneg (v : Vec3 ℝ) : 0 ≤ dot v v := by
  simp only [dot]
  nlinarith [sq_nonneg v.x, sq_nonneg v.y, sq_nonneg v.z]

theorem dot_cross_self_left (u v : Vec3 ℝ) : dot (cross u v) u = 0 := by
  simp only [dot, cross]; ring

theorem dot_cross_self_right (u v : Vec3 ℝ) : dot (cross u v) v = 0 := by
  simp only [dot, cross]; ring

theorem dot_self_left_cross (u v : Vec3 ℝ) : dot u (cross u v) = 0 := by
  simp only [dot, cross]; ring

theorem dot_scale_left (u v : Vec3 ℝ) (k : ℝ) : dot (u.scale k) v = k * dot u v := by
  simp only [dot, Vec3.scale]; ring

theorem dot_scale_scale (u : Vec3 ℝ) (k : ℝ) :
    dot (u.scale k) (u.scale k) = k ^ 2 * dot u u := by
  simp only [dot, Vec3.scale]; ring

/-- Lagrange: the squared length of a cross product. -/
theorem dot_cross_cross (u v : Vec3 ℝ) :
    dot (cross u v) (cross u v) = dot u u * dot v v - dot u v ^ 2 := by
  simp only [dot, cross]; ring

/-- A non-zero vector is normalised to squared length 1. -/
theorem dot_normalize_self {v : Vec3 ℝ} (h : dot v v ≠ 0) :
    dot (normalize v) (normalize v) = 1 := by
  have hpos : 0 < dot v v := lt_of_le_of_ne (dot_self_nonneg v) (Ne.symm h)
  have hs : Real.sqrt (dot v v) ^ 2 = dot v v := Real.sq_sqrt hpos.le
  have hs0 : Real.sqrt (dot v v) ≠ 0 := (Real.sqrt_pos.mpr hpos).ne.symm
  rw [normalize, dot_scale_scale]
  field_simp

/-- A non-zero vector is normalised to length 1. -/
theorem length_normalize {v : Vec3 ℝ} (h : dot v v ≠ 0) : length (normalize v) = 1 := by
  rw [length, dot_normalize_self h, Real.sqrt_one]

/-- A vector of length 1 is left unchanged by `normalize`. -/
theorem normalize_of_length_one {v : Vec3 ℝ} (h : length v = 1) : normalize v = v := by
  have hs : Real.sqrt (dot v v) = 1 := h
  ext <;> simp [normalize, Vec3.scale, hs]

theorem dot_self_of_length_one {v : Vec3 ℝ} (h : length v = 1) : dot v v = 1 := by
  have hs : Real.sqrt (dot v v) = 1 := h
  have := Real.sq_sqrt (dot_self_nonneg v)
  rw [hs] at this
  linarith

/-- The asserted precondition bounds the squared length from below. -/
theorem isNormalized_dot_self {n : Vec3 ℝ} (h : isNormalized n) : (0.9801 : ℝ) < dot n n := by
  have h1 : (0.99 : ℝ) < Real.sqrt (dot n n) := by
    have := (abs_lt.mp h).1
    simp only [length] at this
    norm_num at this ⊢
    linarith
  have h2 := Real.sq_sqrt (dot_self_nonneg n)
  nlinarith

theorem isNormalized_of_length_one {n : Vec3 ℝ} (h : length n = 1) : isNormalized n := by
  simp only [isNormalized, h]
  norm_num

/-- The rotation of `glm::rotate` as Rodrigues' formula, for a vector
orthogonal to the axis: squared length is kept. -/
theorem dot_rotate_self (b n : Vec3 ℝ) (angle : ℝ) (hn : dot n n ≠ 0) (hb : dot n b = 0) :
    dot (rotate b angle n) (rotate b angle n) = dot b b := by
  have ha : dot (normalize n) (normalize n) = 1 := dot_normalize_self hn
  have hab : dot (normalize n) b = 0 := by rw [normalize, dot_scale_left, hb, mul_zero]
  have hcs : Real.cos angle ^ 2 + Real.sin angle ^ 2 = 1 := Real.cos_sq_add_sin_sq angle
  simp only [rotate, rotationMatrix, Mat3.mulVec]
  generalize normalize n = a at ha hab
  obtain ⟨ax, ay, az⟩ := a
  obtain ⟨bx, byy, bz⟩ := b
  simp only [dot, Vec3.scale] at ha hab ⊢
  generalize Real.cos angle = c at hcs ⊢
  generalize Real.sin angle = s at hcs ⊢
  linear_combination (bx * bx + byy * byy + bz * bz) * hcs
    + s ^ 2 * (bx * bx + byy * byy + bz * bz) * ha
    + (ax * bx + ay * byy + az * bz)
        * ((1 - c) ^ 2 * (ax * ax + ay * ay + az * az) - s ^ 2 + 2 * c * (1 - c)) * hab

/-- A vector orthogonal to the axis stays orthogonal to it under `glm::rotate`. -/
theorem dot_rotate_axis (b n : Vec3 ℝ) (angle : ℝ) (hb : dot n b = 0) :
    dot (rotate b angle n) n = 0 := by
  simp only [rotate, rotationMatrix, Mat3.mulVec, normalize]
  generalize (1 / Real.sqrt (dot n n)) = k
  obtain ⟨nx, ny, nz⟩ := n
  obtain ⟨bx, byy, bz⟩ := b
  simp only [dot, Vec3.scale] at hb ⊢
  generalize Real.cos angle = c
  generalize Real.sin angle = s
  linear_combination (c + (1 - c) * k ^ 2 * (nx * nx + ny * ny + nz * nz)) * hb

/-- The base vector is orthogonal to the direction. -/
theorem dot_direction_baseVector (n : Vec3 ℝ) : dot n (baseVector n) = 0 :=
  dot_self_left_cross n _

/-- Under the asserted precondition the cross product with the chosen
reference vector is not the zero vector. -/
theorem dot_baseVector_self_pos {n : Vec3 ℝ} (h : isNormalized n) :
    0 < dot (baseVector n) (baseVector n) := by
  have hq := isNormalized_dot_self h
  simp only [baseVector, otherDirection, upVector]
  split
  · rename_i hz
    simp only [dot, cross] at hz hq ⊢
    norm_num at hz hq ⊢
    have hsq := sq_abs n.z
    nlinarith [sq_nonneg n.y, abs_nonneg n.z]
  · rename_i hz
    simp only [dot, cross] at hz hq ⊢
    norm_num at hz hq ⊢
    have hsq := sq_abs n.z
    nlinarith [abs_nonneg n.z]

/-- With the precondition asserted, `getPlaneBaseVector` returns the
normalised rotated base vector. -/
theorem getPlaneBaseVector_eq (ed : TextEditor ℝ) {n : Vec3 ℝ} (h : isNormalized n) :
    getPlaneBaseVector ed n = some (normalize (rotatedBaseVector ed n)) := by
  have h0 : |length n - 1| < 0.01 := h
  simp [getPlaneBaseVector, P_ASSERT, h0]

/-- The rotated base vector has the squared length of the base vector. -/
theorem dot_rotatedBaseVector_self (ed : TextEditor ℝ) {n : Vec3 ℝ} (h : isNormalized n) :
    dot (rotatedBaseVector ed n) (rotatedBaseVector ed n) = dot (baseVector n) (baseVector n) := by
  have hq := isNormalized_dot_self h
  exact dot_rotate_self _ _ _ (by linarith) (dot_direction_baseVector n)

/-- The rotated base vector is orthogonal to the direction. -/
theorem dot_rotatedBaseVector_direction (ed : TextEditor ℝ) (n : Vec3 ℝ) :
    dot (rotatedBaseVector ed n) n = 0 :=
  dot_rotate_axis _ _ _ (dot_direction_baseVector n)

/-- Rotation by 0 degrees leaves the base vector unchanged. -/
theorem rotate_zero (b n : Vec3 ℝ) : rotate b (radians 0) n = b := by
  ext <;> simp [rotate, rotationMatrix, Mat3.mulVec, radians, Vec3.scale]

/-- A matrix with orthonormal columns keeps squared lengths. -/
theorem dot_mulVec_self (m : Mat3 ℝ) (w : Vec3 ℝ)
    (h00 : dot m.c0 m.c0 = 1) (h11 : dot m.c1 m.c1 = 1) (h22 : dot m.c2 m.c2 = 1)
    (h01 : dot m.c0 m.c1 = 0) (h02 : dot m.c0 m.c2 = 0) (h12 : dot m.c1 m.c2 = 0) :
    dot (m.mulVec w) (m.mulVec w) = dot w w := by
  simp only [dot, Mat3.mulVec] at *
  linear_combination w.x ^ 2 * h00 + w.y ^ 2 * h11 + w.z ^ 2 * h22
    + 2 * w.x * w.y * h01 + 2 * w.x * w.z * h02 + 2 * w.y * w.z * h12

/-- The difference of two placed vertices is the matrix applied to the
difference of the vertices. -/
theorem placeVertex_sub (o : Vec3 ℝ) (m : Mat3 ℝ) (u v : Vec3 ℝ) :
    placeVertex o m u - placeVertex o m v = m.mulVec (u - v) := by
  ext <;> simp only [placeVertex, Vec3.add_def, Vec3.sub_def, Mat3.mulVec] <;> ring

/-! ## Texts as lists of vertices -/

theorem mem_vertices_mapVertices {α : Type} (f : Vec3 α → Vec3 α) (text : Glyphs α)
    (v : Vec3 α) : v ∈ vertices (mapVertices f text) ↔ ∃ u ∈ vertices text, f u = v := by
  simp only [vertices, mapVertices, List.mem_flatMap, List.mem_flatten, List.mem_map,
    Tri.corners, Tri.map, List.mem_cons, List.mem_singleton, List.not_mem_nil, or_false]
  constructor
  · rintro ⟨t, ⟨l, ⟨l0, hl0, rfl⟩, ht⟩, hv⟩
    obtain ⟨t0, ht0, rfl⟩ := List.mem_map.mp ht
    rcases hv with rfl | rfl | rfl
    · exact ⟨t0.a, ⟨t0, ⟨l0, hl0, ht0⟩, Or.inl rfl⟩, rfl⟩
    · exact ⟨t0.b, ⟨t0, ⟨l0, hl0, ht0⟩, Or.inr (Or.inl rfl)⟩, rfl⟩
    · exact ⟨t0.c, ⟨t0, ⟨l0, hl0, ht0⟩, Or.inr (Or.inr rfl)⟩, rfl⟩
  · rintro ⟨u, ⟨t0, ⟨l0, hl0, ht0⟩, hu⟩, rfl⟩
    refine ⟨Tri.map f t0, ⟨l0.map (Tri.map f), ⟨l0, hl0, rfl⟩, List.mem_map.mpr ⟨t0, ht0, rfl⟩⟩, ?_⟩
    rcases hu with rfl | rfl | rfl <;> simp [Tri.map]

theorem mapVertices_mapVertices {α : Type} (f g : Vec3 α → Vec3 α) (text : Glyphs α) :
    mapVertices g (mapVertices f text) = mapVertices (fun v => g (f v)) text := by
  simp [mapVertices, Tri.map, Function.comp_def]

theorem rescaleText_eq_mapVertices {α : Type} [LinearOrderedField α] (fontScale : α)
    (text : Glyphs α) :
    rescaleText fontScale text
      = mapVertices (recenter (textBounds (scaleText fontScale text)))
          (mapVertices (fun v => v.scale fontScale) text) := rfl

/-- Every vertex that comes out of `rescaleText` has z exactly 0. -/
theorem rescaleText_z {α : Type} [LinearOrderedField α] (fontScale : α) (text : Glyphs α)
    (v : Vec3 α) (hv : v ∈ vertices (rescaleText fontScale text)) : v.z = 0 := by
  rw [rescaleText_eq_mapVertices, mem_vertices_mapVertices] at hv
  obtain ⟨u, _, rfl⟩ := hv
  rfl

/-! ## The tangent basis -/

theorem isNormalized_up : isNormalized ⟨0, 0, 1⟩ := by
  simp [isNormalized, length, dot]; norm_num

theorem isNormalized_down : isNormalized ⟨0, 0, -1⟩ := by
  simp [isNormalized, length, dot]; norm_num

theorem length_up : length ⟨0, 0, 1⟩ = 1 := by simp [length, dot]

/-- C2: for a direction `n` of length 1 and rotation 0 degrees,
`getPlaneBaseVector` returns a tangent `t1` such that `t1`,
`t2 = cross(t1, n)` and `n` are pairwise orthogonal, whichever reference
vector was chosen. -/
theorem tangent_basis_orthogonal (ed : TextEditor ℝ) (n : Vec3 ℝ) (hn : length n = 1)
    (hrot : ed.mTextRotation = 0) :
    ∃ t1, getPlaneBaseVector ed n = some t1 ∧ rotatedBaseVector ed n = baseVector n ∧
      dot t1 (cross t1 n) = 0 ∧ dot t1 n = 0 ∧ dot (cross t1 n) n = 0 := by
  refine ⟨_, getPlaneBaseVector_eq ed (isNormalized_of_length_one hn), ?_,
    dot_self_left_cross _ _, ?_, dot_cross_self_right _ _⟩
  · rw [rotatedBaseVector, hrot, rotate_zero]
  · rw [normalize, dot_scale_left, dot_rotatedBaseVector_direction, mul_zero]

theorem tangent_basis_orthogonal_witness :
    length (⟨0, 0, 1⟩ : Vec3 ℝ) = 1 ∧ (startEditor : TextEditor ℝ).mTextRotation = 0 ∧
    ∃ t1, getPlaneBaseVector startEditor ⟨0, 0, 1⟩ = some t1 ∧
      rotatedBaseVector startEditor ⟨0, 0, 1⟩ = baseVector ⟨0, 0, 1⟩ ∧
      dot t1 (cross t1 ⟨0, 0, 1⟩) = 0 ∧ dot t1 ⟨0, 0, 1⟩ = 0 ∧
      dot (cross t1 ⟨0, 0, 1⟩) ⟨0, 0, 1⟩ = 0 :=
  ⟨length_up, rfl, tangent_basis_orthogonal startEditor ⟨0, 0, 1⟩ length_up rfl⟩

/-- C3: under the asserted precondition `| |n| - 1 | < 0.01` and for every
rotation angle, the cross product of `n` with the chosen reference vector
is not the zero vector, neither is the rotated vector handed to
`glm::normalize`, and `getPlaneBaseVector` returns a vector of length 1. -/
theorem getPlaneBaseVector_unit (ed : TextEditor ℝ) (n : Vec3 ℝ) (hn : isNormalized n) :
    cross n (otherDirection n) ≠ ⟨0, 0, 0⟩ ∧
    dot (rotatedBaseVector ed n) (rotatedBaseVector ed n) ≠ 0 ∧
    rotatedBaseVector ed n ≠ ⟨0, 0, 0⟩ ∧
    ∃ t, getPlaneBaseVector ed n = some t ∧ length t = 1 := by
  have hb := dot_baseVector_self_pos hn
  have hr : dot (rotatedBaseVector ed n) (rotatedBaseVector ed n) ≠ 0 := by
    rw [dot_rotatedBaseVector_self ed hn]; exact hb.ne.symm
  refine ⟨?_, hr, ?_, _, getPlaneBaseVector_eq ed hn, length_normalize hr⟩
  · intro h0
    rw [baseVector, h0] at hb
    simp [dot] at hb
  · intro h0
    rw [h0] at hr
    simp [dot] at hr

theorem getPlaneBaseVector_unit_witness :
    (isNormalized ⟨0, 0, 1⟩ ∧
      ∃ t, getPlaneBaseVector startEditor ⟨0, 0, 1⟩ = some t ∧ length t = 1) ∧
    (isNormalized ⟨0, 0, -1⟩ ∧
      ∃ t, getPlaneBaseVector startEditor ⟨0, 0, -1⟩ = some t ∧ length t = 1) :=
  ⟨⟨isNormalized_up, (getPlaneBaseVector_unit startEditor _ isNormalized_up).2.2.2⟩,
   ⟨isNormalized_down, (getPlaneBaseVector_unit startEditor _ isNormalized_down).2.2.2⟩⟩

/-- C9: for a direction that satisfies the asserted precondition,
`getPlaneBaseVector` with rotation `theta` and with rotation `theta + 360`
degrees both return, and return the same tangent. -/
theorem getPlaneBaseVector_periodic (ed : TextEditor ℝ) (n : Vec3 ℝ) (theta : ℝ)
    (hn : isNormalized n) :
    ∃ t, getPlaneBaseVector { ed with mTextRotation := theta } n = some t ∧
      getPlaneBaseVector { ed with mTextRotation := theta + 360 } n = some t := by
  refine ⟨_, getPlaneBaseVector_eq _ hn, ?_⟩
  rw [getPlaneBaseVector_eq _ hn]
  have hrad : radians (theta + 360) = radians theta + 2 * Real.pi := by
    simp only [radians]; ring
  simp only [rotatedBaseVector, rotate, rotationMatrix, hrad, Real.cos_add_two_pi,
    Real.sin_add_two_pi]

theorem getPlaneBaseVector_periodic_witness :
    isNormalized ⟨0, 0, 1⟩ ∧
    ∃ t, getPlaneBaseVector { (startEditor : TextEditor ℝ) with mTextRotation := 30 } ⟨0, 0, 1⟩
        = some t ∧
      getPlaneBaseVector { (startEditor : TextEditor ℝ) with mTextRotation := 30 + 360 } ⟨0, 0, 1⟩
        = some t :=
  ⟨isNormalized_up, getPlaneBaseVector_periodic startEditor ⟨0, 0, 1⟩ 30 isNormalized_up⟩

/-- C10: for a direction `d` of length exactly 1, every rotation angle and
every origin, the tangent `t1` returned by `getPlaneBaseVector`,
`t2 = cross(t1, d)` and `d` are pairwise orthogonal and of length 1, the map
`v -> origin + mat3(t1, t2, d) * v` applied by `rotateText` keeps the
distance between any two vertices, and every placed vertex that comes out of
`rescaleText` lies in the plane through the origin perpendicular to `d`. -/
theorem placement_isometry (ed : TextEditor ℝ) (d origin : Vec3 ℝ) (hd : length d = 1) :
    ∃ t1, getPlaneBaseVector ed d = some t1 ∧
      dot t1 (cross t1 d) = 0 ∧ dot t1 d = 0 ∧ dot (cross t1 d) d = 0 ∧
      length t1 = 1 ∧ length (cross t1 d) = 1 ∧ length d = 1 ∧
      (∀ u v, length (placeVertex origin ⟨t1, cross t1 d, d⟩ u
                - placeVertex origin ⟨t1, cross t1 d, d⟩ v) = length (u - v)) ∧
      (∀ fontScale text, ∀ v ∈ vertices (rescaleText fontScale text),
        dot (placeVertex origin ⟨t1, cross t1 d, d⟩ v - origin) d = 0) := by
  have hn := isNormalized_of_length_one hd
  have hr : dot (rotatedBaseVector ed d) (rotatedBaseVector ed d) ≠ 0 := by
    rw [dot_rotatedBaseVector_self ed hn]; exact (dot_baseVector_self_pos hn).ne.symm
  have hdd := dot_self_of_length_one hd
  have h11 := dot_normalize_self hr
  have h1d : dot (normalize (rotatedBaseVector ed d)) d = 0 := by
    rw [normalize, dot_scale_left, dot_rotatedBaseVector_direction, mul_zero]
  have h22 : dot (cross (normalize (rotatedBaseVector ed d)) d)
      (cross (normalize (rotatedBaseVector ed d)) d) = 1 := by
    rw [dot_cross_cross, h11, hdd, h1d]; norm_num
  refine ⟨_, getPlaneBaseVector_eq ed hn, dot_self_left_cross _ _, h1d,
    dot_cross_self_right _ _, ?_, ?_, hd, ?_, ?_⟩
  · rw [length, h11, Real.sqrt_one]
  · rw [length, h22, Real.sqrt_one]
  · intro u v
    rw [placeVertex_sub, length, length,
      dot_mulVec_self _ _ h11 h22 hdd (dot_self_left_cross _ _) h1d (dot_cross_self_right _ _)]
  · intro fontScale text v hv
    have hz := rescaleText_z fontScale text v hv
    have h2d := dot_cross_self_right (normalize (rotatedBaseVector ed d)) d
    simp only [dot, placeVertex, Vec3.add_def, Vec3.sub_def, Mat3.mulVec, hz] at h1d h2d ⊢
    linear_combination v.x * h1d + v.y * h2d

theorem placement_isometry_witness :
    length (⟨0, 0, 1⟩ : Vec3 ℝ) = 1 ∧
    ∃ t1, getPlaneBaseVector startEditor ⟨0, 0, 1⟩ = some t1 ∧
      dot t1 (cross t1 ⟨0, 0, 1⟩) = 0 ∧ dot t1 ⟨0, 0, 1⟩ = 0 ∧
      dot (cross t1 ⟨0, 0, 1⟩) ⟨0, 0, 1⟩ = 0 ∧
      length t1 = 1 ∧ length (cross t1 ⟨0, 0, 1⟩) = 1 ∧ length (⟨0, 0, 1⟩ : Vec3 ℝ) = 1 ∧
      (∀ u v, length (placeVertex ⟨0, 0, 2⟩ ⟨t1, cross t1 ⟨0, 0, 1⟩, ⟨0, 0, 1⟩⟩ u
                - placeVertex ⟨0, 0, 2⟩ ⟨t1, cross t1 ⟨0, 0, 1⟩, ⟨0, 0, 1⟩⟩ v) = length (u - v)) ∧
      (∀ fontScale text, ∀ v ∈ vertices (rescaleText fontScale text),
        dot (placeVertex ⟨0, 0, 2⟩ ⟨t1, cross t1 ⟨0, 0, 1⟩, ⟨0, 0, 1⟩⟩ v - ⟨0, 0, 2⟩) ⟨0, 0, 1⟩
          = 0) :=
  ⟨length_up, placement_isometry startEditor ⟨0, 0, 1⟩ ⟨0, 0, 2⟩ length_up⟩

/-! ## rotateText -/

theorem normalize_neg_up : normalize (-(⟨0, 0, 1⟩ : Vec3 ℝ)) = ⟨0, 0, -1⟩ := by
  ext <;> simp [normalize, dot, Vec3.neg_def, Vec3.scale]

/-- With the direction `(0,0,1)` and the tangent `(1,0,0)`, the second tangent
of `rotateText` is `(0,-1,0)`. -/
theorem cross_right_up : cross (⟨1, 0, 0⟩ : Vec3 ℝ) ⟨0, 0, 1⟩ = ⟨0, -1, 0⟩ := by
  ext <;> simp [cross]

/-- The tangent for the direction `(0,0,-1)` at rotation 0. -/
theorem getPlaneBaseVector_down (ed : TextEditor ℝ) (hrot : ed.mTextRotation = 0) :
    getPlaneBaseVector ed ⟨0, 0, -1⟩ = some ⟨0, -1, 0⟩ := by
  rw [getPlaneBaseVector_eq ed isNormalized_down, rotatedBaseVector, hrot, rotate_zero]
  congr 1
  ext <;> simp [normalize, baseVector, otherDirection, upVector, dot, cross, Vec3.scale] <;>
    norm_num

/-- What `rotateText` returns on a non-empty text once the selection, the
origin and the tangent are known. -/
theorem rotateText_eq (ed : TextEditor ℝ) (text : Glyphs ℝ) (sel : Nat) (o t1 : Vec3 ℝ)
    (htext : text ≠ []) (hsel : ed.mSelectedIntersection = some sel)
    (ho : getPreviewOrigin ed (normalize (-(ed.mApplication.geometry.triangleNormal sel)))
      = some o)
    (ht1 : getPlaneBaseVector ed (normalize (-(ed.mApplication.geometry.triangleNormal sel)))
      = some t1) :
    rotateText ed text = some (mapVertices (placeVertex o
      ⟨t1, cross t1 (normalize (-(ed.mApplication.geometry.triangleNormal sel))),
        normalize (-(ed.mApplication.geometry.triangleNormal sel))⟩) text) := by
  have he : text.isEmpty = false := by cases text <;> simp_all
  simp only [rotateText, he, hsel, ho, ht1, Option.bind, mapVertices, Tri.map]
  rfl

/-- The shape of a text is kept by a map on its vertices. -/
theorem mapVertices_shape {α : Type} (f : Vec3 α → Vec3 α) (text : Glyphs α) :
    (mapVertices f text).length = text.length ∧
      (mapVertices f text).map List.length = text.map List.length := by
  simp [mapVertices, Function.comp_def]

/-- C1: on a non-empty text, with origin `o`, tangent
`t1 = getPlaneBaseVector(d)`, `t2 = cross(t1, d)` and direction `d`,
`rotateText` replaces every vertex `v` by `o + mat3(t1, t2, d) * v`, which is
`o + v.x*t1 + v.y*t2 + v.z*d`; the number of glyphs and of triangles per
glyph is unchanged; and the transform with `o = 0` and columns `(1,0,0)`,
`(0,1,0)`, `(0,0,1)` leaves every vertex with `z = 0` unchanged. -/
theorem rotateText_formula (ed : TextEditor ℝ) (text : Glyphs ℝ) (sel : Nat) (o t1 : Vec3 ℝ)
    (htext : text ≠ []) (hsel : ed.mSelectedIntersection = some sel)
    (ho : getPreviewOrigin ed (normalize (-(ed.mApplication.geometry.triangleNormal sel)))
      = some o)
    (ht1 : getPlaneBaseVector ed (normalize (-(ed.mApplication.geometry.triangleNormal sel)))
      = some t1) :
    ∃ out, rotateText ed text = some out ∧
      out = mapVertices (placeVertex o
        ⟨t1, cross t1 (normalize (-(ed.mApplication.geometry.triangleNormal sel))),
          normalize (-(ed.mApplication.geometry.triangleNormal sel))⟩) text ∧
      (∀ t2 d v, placeVertex o ⟨t1, t2, d⟩ v
        = o + (t1.scale v.x + t2.scale v.y + d.scale v.z)) ∧
      out.length = text.length ∧ out.map List.length = text.map List.length ∧
      (∀ v : Vec3 ℝ, v.z = 0 →
        placeVertex ⟨0, 0, 0⟩ ⟨⟨1, 0, 0⟩, ⟨0, 1, 0⟩, ⟨0, 0, 1⟩⟩ v = v) := by
  refine ⟨_, rotateText_eq ed text sel o t1 htext hsel ho ht1, rfl, ?_,
    (mapVertices_shape _ _).1, (mapVertices_shape _ _).2, ?_⟩
  · intro t2 d v
    ext <;> simp only [placeVertex, Vec3.add_def, Mat3.mulVec, Vec3.scale]
  · intro v _
    ext <;> simp [placeVertex, Vec3.add_def, Mat3.mulVec]

/-- The preview origin of an editor with a selection. -/
theorem getPreviewOrigin_eq (ed : TextEditor ℝ) (sel : Nat) (d : Vec3 ℝ)
    (hsel : ed.mSelectedIntersection = some sel) :
    getPreviewOrigin ed d = some (ed.mSelectedIntersectionPoint
      - d.scale (ed.TEXT_DISTANCE_SCALE * ed.mApplication.modelView.maxSize)) := by
  simp [getPreviewOrigin, P_ASSERT, hsel]

theorem pickedEditor_origin :
    getPreviewOrigin (pickedEditor : TextEditor ℝ)
      (normalize (-((pickedEditor : TextEditor ℝ).mApplication.geometry.triangleNormal 0)))
      = some ⟨0, 0, 2⟩ := by
  rw [getPreviewOrigin_eq _ 0 _ rfl]
  simp only [pickedEditor, startEditor, normalize_neg_up, Vec3.sub_def, Vec3.scale]
  norm_num

theorem rotateText_formula_witness :
    (unitTriangleText : Glyphs ℝ) ≠ [] ∧
    ∃ out, rotateText pickedEditor unitTriangleText = some out ∧
      out = mapVertices (placeVertex ⟨0, 0, 2⟩
        ⟨⟨0, -1, 0⟩, cross ⟨0, -1, 0⟩ (normalize (-(⟨0, 0, 1⟩ : Vec3 ℝ))),
          normalize (-(⟨0, 0, 1⟩ : Vec3 ℝ))⟩) unitTriangleText ∧
      (∀ t2 d v, placeVertex (⟨0, 0, 2⟩ : Vec3 ℝ) ⟨⟨0, -1, 0⟩, t2, d⟩ v
        = ⟨0, 0, 2⟩ + ((⟨0, -1, 0⟩ : Vec3 ℝ).scale v.x + t2.scale v.y + d.scale v.z)) ∧
      out.length = (unitTriangleText : Glyphs ℝ).length ∧
      out.map List.length = (unitTriangleText : Glyphs ℝ).map List.length ∧
      (∀ v : Vec3 ℝ, v.z = 0 →
        placeVertex ⟨0, 0, 0⟩ ⟨⟨1, 0, 0⟩, ⟨0, 1, 0⟩, ⟨0, 0, 1⟩⟩ v = v) :=
  ⟨by simp [unitTriangleText],
   rotateText_formula pickedEditor unitTriangleText 0 ⟨0, 0, 2⟩ ⟨0, -1, 0⟩
    (by simp [unitTriangleText]) rfl pickedEditor_origin
    (by
      have h : normalize (-((pickedEditor : TextEditor ℝ).mApplication.geometry.triangleNormal 0))
          = ⟨0, 0, -1⟩ := normalize_neg_up
      rw [h]
      exact getPlaneBaseVector_down _ rfl)⟩

/-! ## The preview, end to end -/

/-- The unit triangle rescaled with scale 1. -/
theorem rescaleText_unitTriangle :
    rescaleText (1 : ℝ) unitTriangleText
      = [[{ a := ⟨-1 / 2, 1 / 2, 0⟩, b := ⟨1 / 2, 1 / 2, 0⟩, c := ⟨-1 / 2, -1 / 2, 0⟩ }]] := by
  norm_num [rescaleText, scaleText, scaleTri, textBounds, updateMinMax, initMinMax, recenter,
    Tri.map, Vec3.scale, FLT_MIN, FLT_MAX, unitTriangleText]

/-- A text is empty after `rescaleText` only if it was empty. -/
theorem rescaleText_ne_nil {α : Type} [LinearOrderedField α] (fontScale : α) {text : Glyphs α}
    (h : text ≠ []) : rescaleText fontScale text ≠ [] := by
  cases text with
  | nil => exact absurd rfl h
  | cons l ls => simp [rescaleText, scaleText]

/-- What `updateTextPreview` does with a selection and a non-empty
triangulated text: rescale, place, rebuild the preview mesh. -/
theorem updateTextPreview_eq (ed : TextEditor ℝ) (sel : Nat) (o t1 : Vec3 ℝ)
    (hsel : ed.mSelectedIntersection = some sel) (hne : ed.mTriangulatedText ≠ [])
    (ho : getPreviewOrigin ed (normalize (-(ed.mApplication.geometry.triangleNormal sel)))
      = some o)
    (ht1 : getPlaneBaseVector ed (normalize (-(ed.mApplication.geometry.triangleNormal sel)))
      = some t1) :
    updateTextPreview ed = some (createPreviewMesh { ed with
      mRenderedText := mapVertices (placeVertex o
        ⟨t1, cross t1 (normalize (-(ed.mApplication.geometry.triangleNormal sel))),
          normalize (-(ed.mApplication.geometry.triangleNormal sel))⟩)
        (rescaleText ed.mFontScale ed.mTriangulatedText) }) := by
  have h := rotateText_eq
    { ed with mRenderedText := rescaleText ed.mFontScale ed.mTriangulatedText }
    (rescaleText ed.mFontScale ed.mTriangulatedText) sel o t1
    (rescaleText_ne_nil _ hne) hsel ho ht1
  have hn : ed.mSelectedIntersection.isNone = false := by rw [hsel]; rfl
  simp only [updateTextPreview, hn, Bool.false_eq_true, if_false]
  rw [h]
  rfl

/-- The preview origin in the end-to-end scenario. -/
theorem getPreviewOrigin_scenario (ed : TextEditor ℝ) (sel : Nat)
    (hsel : ed.mSelectedIntersection = some sel)
    (hnormal : ed.mApplication.geometry.triangleNormal sel = ⟨0, 0, 1⟩)
    (hpoint : ed.mSelectedIntersectionPoint = ⟨0, 0, 0⟩)
    (hdist : ed.TEXT_DISTANCE_SCALE * ed.mApplication.modelView.maxSize = 2) :
    getPreviewOrigin ed (normalize (-(ed.mApplication.geometry.triangleNormal sel)))
      = some ⟨0, 0, 2⟩ := by
  rw [getPreviewOrigin_eq _ sel _ hsel, hnormal, normalize_neg_up, hpoint, hdist]
  simp only [Vec3.sub_def, Vec3.scale]
  norm_num

/-- The end-to-end scenario evaluated: `updateTextPreview` returns the editor
with the placed unit triangle rendered and the preview mesh rebuilt. -/
theorem updateTextPreview_scenario (ed : TextEditor ℝ) (sel : Nat)
    (hsel : ed.mSelectedIntersection = some sel)
    (hnormal : ed.mApplication.geometry.triangleNormal sel = ⟨0, 0, 1⟩)
    (hpoint : ed.mSelectedIntersectionPoint = ⟨0, 0, 0⟩)
    (hdist : ed.TEXT_DISTANCE_SCALE * ed.mApplication.modelView.maxSize = 2)
    (hscale : ed.mFontScale = 1) (hrot : ed.mTextRotation = 0)
    (htext : ed.mTriangulatedText = unitTriangleText) :
    updateTextPreview ed
      = some (createPreviewMesh { ed with mRenderedText := placedUnitTriangle }) := by
  have ho := getPreviewOrigin_scenario ed sel hsel hnormal hpoint hdist
  have hne : ed.mTriangulatedText ≠ [] := by rw [htext]; simp [unitTriangleText]
  have ht1 : getPlaneBaseVector ed (normalize (-(ed.mApplication.geometry.triangleNormal sel)))
      = some ⟨0, -1, 0⟩ := by
    simp only [hnormal, normalize_neg_up]
    exact getPlaneBaseVector_down _ hrot
  rw [updateTextPreview_eq ed sel _ _ hsel hne ho ht1]
  have hm : mapVertices (placeVertex ⟨0, 0, 2⟩
      ⟨⟨0, -1, 0⟩, cross ⟨0, -1, 0⟩ (normalize (-(ed.mApplication.geometry.triangleNormal sel))),
        normalize (-(ed.mApplication.geometry.triangleNormal sel))⟩)
      (rescaleText ed.mFontScale ed.mTriangulatedText) = placedUnitTriangle := by
    rw [hscale, htext, rescaleText_unitTriangle]
    simp only [hnormal, normalize_neg_up, mapVertices, Tri.map, placeVertex, Mat3.mulVec,
      cross, Vec3.add_def, List.map_cons, List.map_nil, placedUnitTriangle]
    norm_num
  rw [hm]

/-- C6, as amended: in the end-to-end scenario (surface point `(0,0,0)`,
triangle normal `(0,0,1)`, offset distance 2, scale 1, rotation 0, the single
triangle `(0,0)`, `(1,0)`, `(0,1)`) the direction handed to `getPreviewOrigin`
is the negated normal `(0,0,-1)`, the preview origin is
`surfacePoint - direction * offsetDistance = (0,0,2)`, `updateTextPreview`
returns, and every placed vertex has `z = 2`. -/
theorem preview_end_to_end (ed : TextEditor ℝ) (sel : Nat)
    (hsel : ed.mSelectedIntersection = some sel)
    (hnormal : ed.mApplication.geometry.triangleNormal sel = ⟨0, 0, 1⟩)
    (hpoint : ed.mSelectedIntersectionPoint = ⟨0, 0, 0⟩)
    (hdist : ed.TEXT_DISTANCE_SCALE * ed.mApplication.modelView.maxSize = 2)
    (hscale : ed.mFontScale = 1) (hrot : ed.mTextRotation = 0)
    (htext : ed.mTriangulatedText = unitTriangleText) :
    normalize (-(ed.mApplication.geometry.triangleNormal sel)) = ⟨0, 0, -1⟩ ∧
    getPreviewOrigin ed (normalize (-(ed.mApplication.geometry.triangleNormal sel)))
      = some ⟨0, 0, 2⟩ ∧
    ∃ ed', updateTextPreview ed = some ed' ∧
      ed'.mRenderedText
        = [[{ a := ⟨1 / 2, 1 / 2, 2⟩, b := ⟨1 / 2, -1 / 2, 2⟩, c := ⟨-1 / 2, 1 / 2, 2⟩ }]] ∧
      ∀ v ∈ vertices ed'.mRenderedText, v.z = 2 := by
  refine ⟨by rw [hnormal, normalize_neg_up],
    getPreviewOrigin_scenario ed sel hsel hnormal hpoint hdist, _,
    updateTextPreview_scenario ed sel hsel hnormal hpoint hdist hscale hrot htext, rfl, ?_⟩
  intro v hv
  simp only [createPreviewMesh, placedUnitTriangle, vertices, Tri.corners, List.flatten, List.flatMap_cons,
    List.flatMap_nil, List.append_nil, List.mem_cons, List.mem_singleton, List.not_mem_nil,
    or_false, List.cons_append, List.nil_append] at hv
  rcases hv with rfl | rfl | rfl <;> rfl

theorem pickedEditor_dist :
    (pickedEditor : TextEditor ℝ).TEXT_DISTANCE_SCALE
      * (pickedEditor : TextEditor ℝ).mApplication.modelView.maxSize = 2 := by
  norm_num [pickedEditor, startEditor]

theorem preview_end_to_end_witness :
    (pickedEditor : TextEditor ℝ).mSelectedIntersection = some 0 ∧
    (pickedEditor : TextEditor ℝ).mApplication.geometry.triangleNormal 0 = ⟨0, 0, 1⟩ ∧
    (pickedEditor : TextEditor ℝ).mSelectedIntersectionPoint = ⟨0, 0, 0⟩ ∧
    (pickedEditor : TextEditor ℝ).TEXT_DISTANCE_SCALE
      * (pickedEditor : TextEditor ℝ).mApplication.modelView.maxSize = 2 ∧
    ∃ ed', updateTextPreview pickedEditor = some ed' ∧
      ∀ v ∈ vertices ed'.mRenderedText, v.z = 2 :=
  ⟨rfl, rfl, rfl, pickedEditor_dist,
    (preview_end_to_end pickedEditor 0 rfl rfl rfl pickedEditor_dist rfl rfl rfl).2.2.imp
      fun _ h => ⟨h.1, h.2.2⟩⟩

/-- C6 as stated fails: in the scenario the preview origin is `(0,0,2)`, not
`(0,0,-2)`, and a placed vertex has `z = 2`, not `-2`. -/
theorem preview_end_to_end_counterexample :
    (pickedEditor : TextEditor ℝ).mSelectedIntersection = some 0 ∧
    (pickedEditor : TextEditor ℝ).mApplication.geometry.triangleNormal 0 = ⟨0, 0, 1⟩ ∧
    (pickedEditor : TextEditor ℝ).mSelectedIntersectionPoint = ⟨0, 0, 0⟩ ∧
    (pickedEditor : TextEditor ℝ).TEXT_DISTANCE_SCALE
      * (pickedEditor : TextEditor ℝ).mApplication.modelView.maxSize = 2 ∧
    (pickedEditor : TextEditor ℝ).mFontScale = 1 ∧
    (pickedEditor : TextEditor ℝ).mTextRotation = 0 ∧
    (pickedEditor : TextEditor ℝ).mTriangulatedText = unitTriangleText ∧
    getPreviewOrigin (pickedEditor : TextEditor ℝ)
      (normalize (-((pickedEditor : TextEditor ℝ).mApplication.geometry.triangleNormal 0)))
      ≠ some ⟨0, 0, -2⟩ ∧
    ∃ ed', updateTextPreview pickedEditor = some ed' ∧
      ¬ ∀ v ∈ vertices ed'.mRenderedText, v.z = -2 := by
  have ho := getPreviewOrigin_scenario (pickedEditor : TextEditor ℝ) 0 rfl rfl rfl
    pickedEditor_dist
  refine ⟨rfl, rfl, rfl, pickedEditor_dist, rfl, rfl, rfl, ?_, _,
    updateTextPreview_scenario pickedEditor 0 rfl rfl rfl pickedEditor_dist rfl rfl rfl, ?_⟩
  · rw [ho]
    intro h
    have hz := congrArg (fun o => (o.map Vec3.z).getD 0) h
    norm_num at hz
  · intro h
    have hz := h ⟨1 / 2, 1 / 2, 2⟩
      (by simp [createPreviewMesh, placedUnitTriangle, vertices, Tri.corners])
    norm_num at hz

/-! ## The bounding box of rescaleText -/

section Bounds

variable {α : Type} [LinearOrderedField α]

theorem updateMinMax_eq (mm : MinMax α) (pt : Vec3 α) :
    updateMinMax mm pt
      = ⟨(min mm.min.1 pt.x, min mm.min.2 pt.y), (max mm.max.1 pt.x, max mm.max.2 pt.y)⟩ := by
  have hmax : ∀ m p : α, (if p > m then p else m) = max m p := by
    intro m p
    rcases lt_or_le m p with h | h
    · rw [if_pos h, max_eq_right h.le]
    · rw [if_neg (not_lt.mpr h), max_eq_left h]
  have hmin : ∀ m p : α, (if p < m then p else m) = min m p := by
    intro m p
    rcases lt_or_le p m with h | h
    · rw [if_pos h, min_eq_right h.le]
    · rw [if_neg (not_lt.mpr h), min_eq_left h]
  simp only [updateMinMax, hmax, hmin]

/-- The second loop of `rescaleText` is one fold of `updateMinMax` over all
vertices. -/
theorem textBounds_eq_foldl (text : Glyphs α) :
    textBounds text = (vertices text).foldl updateMinMax initMinMax := by
  have hletter : ∀ (l : List (Tri α)) (acc : MinMax α),
      l.foldl (fun acc t => updateMinMax (updateMinMax (updateMinMax acc t.a) t.b) t.c) acc
        = (l.flatMap Tri.corners).foldl updateMinMax acc := by
    intro l
    induction l with
    | nil => intro acc; rfl
    | cons t l ih =>
      intro acc
      simp only [List.foldl_cons, List.flatMap_cons, List.foldl_append, ih, Tri.corners,
        List.foldl_nil]
  have htext : ∀ (ls : Glyphs α) (acc : MinMax α),
      ls.foldl (fun acc letter =>
        letter.foldl (fun acc t => updateMinMax (updateMinMax (updateMinMax acc t.a) t.b) t.c)
          acc) acc
        = ((ls.flatten).flatMap Tri.corners).foldl updateMinMax acc := by
    intro ls
    induction ls with
    | nil => intro acc; rfl
    | cons l ls ih =>
      intro acc
      rw [List.foldl_cons, ih, hletter, List.flatten_cons, List.flatMap_append,
        List.foldl_append]
  exact htext text initMinMax

/-- Folding `updateMinMax` folds `min` and `max` on each coordinate. -/
theorem foldl_updateMinMax (vs : List (Vec3 α)) (mm : MinMax α) :
    vs.foldl updateMinMax mm
      = ⟨((vs.map Vec3.x).foldl min mm.min.1, (vs.map Vec3.y).foldl min mm.min.2),
         ((vs.map Vec3.x).foldl max mm.max.1, (vs.map Vec3.y).foldl max mm.max.2)⟩ := by
  induction vs generalizing mm with
  | nil => rfl
  | cons v vs ih => simp only [List.foldl_cons, List.map_cons, ih, updateMinMax_eq]

theorem foldl_max_eq (xs : List α) (m M : α) (hle : ∀ x ∈ xs, x ≤ M) (hm : m ≤ M)
    (hmem : M ∈ xs ∨ m = M) : xs.foldl max m = M := by
  induction xs generalizing m with
  | nil =>
    rcases hmem with h | h
    · simp at h
    · exact h
  | cons a xs ih =>
    have ha : a ≤ M := hle a (List.mem_cons_self _ _)
    refine ih (max m a) (fun x hx => hle x (List.mem_cons_of_mem _ hx)) (max_le hm ha) ?_
    rcases hmem with h | h
    · rcases List.mem_cons.mp h with h | h
      · right; rw [← h]; exact max_eq_right (h ▸ hm)
      · left; exact h
    · right; rw [h]; exact max_eq_left ha

theorem foldl_min_eq (xs : List α) (m M : α) (hle : ∀ x ∈ xs, M ≤ x) (hm : M ≤ m)
    (hmem : M ∈ xs ∨ m = M) : xs.foldl min m = M := by
  induction xs generalizing m with
  | nil =>
    rcases hmem with h | h
    · simp at h
    · exact h
  | cons a xs ih =>
    have ha : M ≤ a := hle a (List.mem_cons_self _ _)
    refine ih (min m a) (fun x hx => hle x (List.mem_cons_of_mem _ hx)) (le_min hm ha) ?_
    rcases hmem with h | h
    · rcases List.mem_cons.mp h with h | h
      · right; rw [← h]; exact min_eq_right (h ▸ hm)
      · left; exact h
    · right; rw [h]; exact min_eq_left ha

/-- The upper bound used by `rescaleText` is the larger of `FLT_MIN` and the
maximum over the vertices. -/
theorem foldl_max_of_isMaxOf (f : Vec3 α → α) (vs : List (Vec3 α)) (m M : α)
    (h : isMaxOf f vs M) : (vs.map f).foldl max m = max m M := by
  obtain ⟨⟨v, hv, hfv⟩, hle⟩ := h
  refine foldl_max_eq _ _ _ ?_ (le_max_left _ _) ?_
  · intro x hx
    obtain ⟨u, hu, rfl⟩ := List.mem_map.mp hx
    exact (hle u hu).trans (le_max_right _ _)
  · rcases le_total m M with h | h
    · left; rw [max_eq_right h]; exact List.mem_map.mpr ⟨v, hv, hfv⟩
    · right; rw [max_eq_left h]

theorem foldl_min_of_isMinOf (f : Vec3 α → α) (vs : List (Vec3 α)) (m M : α)
    (h : isMinOf f vs M) : (vs.map f).foldl min m = min m M := by
  obtain ⟨⟨v, hv, hfv⟩, hle⟩ := h
  refine foldl_min_eq _ _ _ ?_ (min_le_left _ _) ?_
  · intro x hx
    obtain ⟨u, hu, rfl⟩ := List.mem_map.mp hx
    exact (min_le_right _ _).trans (hle u hu)
  · rcases le_total M m with h | h
    · left; rw [min_eq_right h]; exact List.mem_map.mpr ⟨v, hv, hfv⟩
    · right; rw [min_eq_left h]

/-- What the second loop of `rescaleText` computes, against the true bounds:
the minimum capped by `FLT_MAX` and the maximum floored by `FLT_MIN`. -/
theorem textBounds_of_bounds (text : Glyphs α) (minX maxX minY maxY : α)
    (hminX : isMinOf Vec3.x (vertices text) minX) (hmaxX : isMaxOf Vec3.x (vertices text) maxX)
    (hminY : isMinOf Vec3.y (vertices text) minY) (hmaxY : isMaxOf Vec3.y (vertices text) maxY) :
    textBounds text
      = ⟨(min FLT_MAX minX, min FLT_MAX minY), (max FLT_MIN maxX, max FLT_MIN maxY)⟩ := by
  rw [textBounds_eq_foldl, foldl_updateMinMax, foldl_max_of_isMaxOf _ _ _ _ hmaxX,
    foldl_max_of_isMaxOf _ _ _ _ hmaxY, foldl_min_of_isMinOf _ _ _ _ hminX,
    foldl_min_of_isMinOf _ _ _ _ hminY]
  rfl

end Bounds

/-! ## The output of rescaleText -/

section RescaleFormula

variable {α : Type} [LinearOrderedField α]

theorem isMinOf_scaled (s : α) (f : Vec3 α → α) (text : Glyphs α) (m : α)
    (h : isMinOf (fun v => f (v.scale s)) (vertices text) m) :
    isMinOf f (vertices (mapVertices (fun v => v.scale s) text)) m := by
  obtain ⟨⟨v, hv, hfv⟩, hle⟩ := h
  refine ⟨⟨v.scale s, (mem_vertices_mapVertices _ _ _).mpr ⟨v, hv, rfl⟩, hfv⟩, ?_⟩
  intro u hu
  obtain ⟨w, hw, rfl⟩ := (mem_vertices_mapVertices _ _ _).mp hu
  exact hle w hw

theorem isMaxOf_scaled (s : α) (f : Vec3 α → α) (text : Glyphs α) (m : α)
    (h : isMaxOf (fun v => f (v.scale s)) (vertices text) m) :
    isMaxOf f (vertices (mapVertices (fun v => v.scale s) text)) m := by
  obtain ⟨⟨v, hv, hfv⟩, hle⟩ := h
  refine ⟨⟨v.scale s, (mem_vertices_mapVertices _ _ _).mpr ⟨v, hv, rfl⟩, hfv⟩, ?_⟩
  intro u hu
  obtain ⟨w, hw, rfl⟩ := (mem_vertices_mapVertices _ _ _).mp hu
  exact hle w hw

/-- The output formula of `rescaleText` where the initial values of the
pairs do not interfere: the maxima of the scaled x and y are at least
`FLT_MIN` and the minima at most `FLT_MAX`. Every vertex `(x, y, z)` becomes
`(s*x - minX - maxX/2, -(s*y - minY - maxY/2), 0)`. -/
theorem rescaleText_of_bounds (s : α) (text : Glyphs α) (minX maxX minY maxY : α)
    (hminX : isMinOf (fun v => s * v.x) (vertices text) minX)
    (hmaxX : isMaxOf (fun v => s * v.x) (vertices text) maxX)
    (hminY : isMinOf (fun v => s * v.y) (vertices text) minY)
    (hmaxY : isMaxOf (fun v => s * v.y) (vertices text) maxY)
    (hX : FLT_MIN ≤ maxX) (hY : FLT_MIN ≤ maxY) (hx : minX ≤ FLT_MAX) (hy : minY ≤ FLT_MAX) :
    rescaleText s text = mapVertices (rescaledVertex s minX maxX minY maxY) text := by
  have h1 : (fun v : Vec3 α => s * v.x) = fun v => (v.scale s).x :=
    funext fun v => mul_comm _ _
  have h2 : (fun v : Vec3 α => s * v.y) = fun v => (v.scale s).y :=
    funext fun v => mul_comm _ _
  rw [h1] at hminX hmaxX
  rw [h2] at hminY hmaxY
  have hb := textBounds_of_bounds (mapVertices (fun v => v.scale s) text) minX maxX minY maxY
    (isMinOf_scaled s Vec3.x text minX hminX) (isMaxOf_scaled s Vec3.x text maxX hmaxX)
    (isMinOf_scaled s Vec3.y text minY hminY) (isMaxOf_scaled s Vec3.y text maxY hmaxY)
  rw [min_eq_right hx, min_eq_right hy, max_eq_right hX, max_eq_right hY] at hb
  rw [rescaleText_eq_mapVertices]
  have hs : scaleText s text = mapVertices (fun v => v.scale s) text := rfl
  rw [hs, hb, mapVertices_mapVertices]
  congr 1
  funext v
  ext <;> simp only [recenter, rescaledVertex, Vec3.scale] <;> ring

end RescaleFormula

/-- C4, evaluated where it fails: the triangle `(0,0,0)`, `(2^-127,0,0)`,
`(0,2^-127,0)` with scale 1 has strictly positive maximum x and y, both
`2^-127`, and minimum 0; `rescaleText` recentres it with `max = 2^-126`
(the initial value of the pair), so its output is not the one given by the
formula `(s*x - minX - maxX/2, -(s*y - minY - maxY/2), 0)` with the true
bounds. -/
theorem rescaleText_tiny_maximum :
    isMinOf (fun v => 1 * v.x) (vertices (tinyTriangleText : Glyphs ℚ)) 0 ∧
    isMaxOf (fun v => 1 * v.x) (vertices (tinyTriangleText : Glyphs ℚ)) (1 / 2 ^ 127) ∧
    isMinOf (fun v => 1 * v.y) (vertices (tinyTriangleText : Glyphs ℚ)) 0 ∧
    isMaxOf (fun v => 1 * v.y) (vertices (tinyTriangleText : Glyphs ℚ)) (1 / 2 ^ 127) ∧
    (0 : ℚ) < 1 / 2 ^ 127 ∧
    rescaleText (1 : ℚ) tinyTriangleText
      = [[{ a := ⟨-(1 / 2 ^ 127), 1 / 2 ^ 127, 0⟩, b := ⟨0, 1 / 2 ^ 127, 0⟩,
            c := ⟨-(1 / 2 ^ 127), 0, 0⟩ }]] ∧
    mapVertices (rescaledVertex (1 : ℚ) 0 (1 / 2 ^ 127) 0 (1 / 2 ^ 127)) tinyTriangleText
      = [[{ a := ⟨-(1 / 2 ^ 128), 1 / 2 ^ 128, 0⟩, b := ⟨1 / 2 ^ 128, 1 / 2 ^ 128, 0⟩,
            c := ⟨-(1 / 2 ^ 128), -(1 / 2 ^ 128), 0⟩ }]] ∧
    rescaleText (1 : ℚ) tinyTriangleText
      ≠ mapVertices (rescaledVertex 1 0 (1 / 2 ^ 127) 0 (1 / 2 ^ 127)) tinyTriangleText := by
  have hcode : rescaleText (1 : ℚ) tinyTriangleText
      = [[{ a := ⟨-(1 / 2 ^ 127), 1 / 2 ^ 127, 0⟩, b := ⟨0, 1 / 2 ^ 127, 0⟩,
            c := ⟨-(1 / 2 ^ 127), 0, 0⟩ }]] := by
    norm_num [rescaleText, scaleText, scaleTri, textBounds, updateMinMax, initMinMax, recenter,
      Tri.map, Vec3.scale, FLT_MIN, FLT_MAX, tinyTriangleText]
  have hspec : mapVertices (rescaledVertex (1 : ℚ) 0 (1 / 2 ^ 127) 0 (1 / 2 ^ 127))
      tinyTriangleText
      = [[{ a := ⟨-(1 / 2 ^ 128), 1 / 2 ^ 128, 0⟩, b := ⟨1 / 2 ^ 128, 1 / 2 ^ 128, 0⟩,
            c := ⟨-(1 / 2 ^ 128), -(1 / 2 ^ 128), 0⟩ }]] := by
    norm_num [mapVertices, rescaledVertex, Tri.map, tinyTriangleText]
  refine ⟨?_, ?_, ?_, ?_, by norm_num, hcode, hspec, ?_⟩
  · norm_num [isMinOf, vertices, Tri.corners, tinyTriangleText]
  · norm_num [isMaxOf, vertices, Tri.corners, tinyTriangleText]
  · norm_num [isMinOf, vertices, Tri.corners, tinyTriangleText]
  · norm_num [isMaxOf, vertices, Tri.corners, tinyTriangleText]
  · rw [hcode, hspec]
    norm_num

/-- C5, evaluated where it fails: for the triangle `(-2,-1,0)`, `(-1,-1,0)`,
`(-1,-2,0)` with scale 1 the maximum of the scaled x and of the scaled y is
`-1`, while the pair `max` used for recentering stays at its initial value
`(FLT_MIN, FLT_MIN)`, which is positive; the pair `min` is the true
minimum `(-2,-2)`. -/
theorem textBounds_negative :
    isMaxOf Vec3.x (vertices (scaleText (1 : ℚ) negativeTriangleText)) (-1) ∧
    isMaxOf Vec3.y (vertices (scaleText (1 : ℚ) negativeTriangleText)) (-1) ∧
    isMinOf Vec3.x (vertices (scaleText (1 : ℚ) negativeTriangleText)) (-2) ∧
    isMinOf Vec3.y (vertices (scaleText (1 : ℚ) negativeTriangleText)) (-2) ∧
    textBounds (scaleText (1 : ℚ) negativeTriangleText)
      = { min := (-2, -2), max := (FLT_MIN, FLT_MIN) } ∧
    (textBounds (scaleText (1 : ℚ) negativeTriangleText)).max.1 ≠ -1 ∧
    (textBounds (scaleText (1 : ℚ) negativeTriangleText)).max.2 ≠ -1 ∧
    rescaleText (1 : ℚ) negativeTriangleText
      ≠ mapVertices (rescaledVertex 1 (-2) (-1) (-2) (-1)) negativeTriangleText := by
  have hb : textBounds (scaleText (1 : ℚ) negativeTriangleText)
      = { min := (-2, -2), max := (FLT_MIN, FLT_MIN) } := by
    norm_num [scaleText, scaleTri, textBounds, updateMinMax, initMinMax, Vec3.scale, FLT_MIN,
      FLT_MAX, negativeTriangleText]
  refine ⟨?_, ?_, ?_, ?_, hb, ?_, ?_, ?_⟩
  · norm_num [isMaxOf, vertices, Tri.corners, negativeTriangleText, scaleText, scaleTri,
      Vec3.scale]
  · norm_num [isMaxOf, vertices, Tri.corners, negativeTriangleText, scaleText, scaleTri,
      Vec3.scale]
  · norm_num [isMinOf, vertices, Tri.corners, negativeTriangleText, scaleText, scaleTri,
      Vec3.scale]
  · norm_num [isMinOf, vertices, Tri.corners, negativeTriangleText, scaleText, scaleTri,
      Vec3.scale]
  · rw [hb]; norm_num [FLT_MIN]
  · rw [hb]; norm_num [FLT_MIN]
  · norm_num [rescaleText, scaleText, scaleTri, textBounds, updateMinMax, initMinMax, recenter,
      Tri.map, Vec3.scale, FLT_MIN, FLT_MAX, negativeTriangleText, mapVertices, rescaledVertex]

/-! ## updateTextPreview without selection or without glyphs -/

/-- Without a selection `updateTextPreview` only copies the triangulated text. -/
theorem updateTextPreview_none (ed : TextEditor ℝ) (h : ed.mSelectedIntersection = none) :
    updateTextPreview ed = some { ed with mRenderedText := ed.mTriangulatedText } := by
  simp [updateTextPreview, h]

/-- With a selection and no glyphs `updateTextPreview` resets the preview. -/
theorem updateTextPreview_nil (ed : TextEditor ℝ) (sel : Nat)
    (hsel : ed.mSelectedIntersection = some sel) (h : ed.mTriangulatedText = []) :
    updateTextPreview ed = some (createPreviewMesh { ed with mRenderedText := [] }) := by
  simp [updateTextPreview, hsel, h, rescaleText, scaleText, rotateText]

theorem createPreviewMesh_nil_previewEmpty {α : Type} [One α] [Zero α] (ed : TextEditor α)
    (h : ed.mRenderedText = []) : (createPreviewMesh ed).mApplication.modelView.previewEmpty := by
  simp [createPreviewMesh, ModelView.previewEmpty, ModelView.resetPreview, h, vertices]

/-- C8, as amended: without a selected intersection `updateTextPreview`
returns with the rendered text equal to the unplaced triangulated glyph set
and the preview mesh untouched (nothing is added, nothing is cleared); with
an empty triangulated glyph set the rendered text is empty for every
selection state, and with a selection the preview mesh is reset to empty. -/
theorem updateTextPreview_no_preview (ed : TextEditor ℝ)
    (h : ed.mSelectedIntersection = none ∨ ed.mTriangulatedText = []) :
    ∃ ed', updateTextPreview ed = some ed' ∧
      (ed.mSelectedIntersection = none →
        ed'.mRenderedText = ed.mTriangulatedText ∧
        ed'.mApplication.modelView = ed.mApplication.modelView) ∧
      (ed.mTriangulatedText = [] →
        ed'.mRenderedText = [] ∧
        (ed.mSelectedIntersection ≠ none → ed'.mApplication.modelView.previewEmpty)) := by
  cases hs : ed.mSelectedIntersection with
  | none =>
    refine ⟨_, updateTextPreview_none ed hs, fun _ => ⟨rfl, rfl⟩, fun ht => ⟨ht, fun hc => ?_⟩⟩
    exact absurd rfl hc
  | some sel =>
    have ht : ed.mTriangulatedText = [] := by
      rcases h with h | h
      · rw [hs] at h; cases h
      · exact h
    refine ⟨_, updateTextPreview_nil ed sel hs ht, fun hc => Option.noConfusion hc,
      fun _ => ⟨rfl, fun _ => createPreviewMesh_nil_previewEmpty _ rfl⟩⟩

theorem updateTextPreview_no_preview_witness :
    (startEditor : TextEditor ℝ).mSelectedIntersection = none ∧
    ∃ ed', updateTextPreview (startEditor : TextEditor ℝ) = some ed' ∧
      ed'.mRenderedText = [] ∧
      ed'.mApplication.modelView = (startEditor : TextEditor ℝ).mApplication.modelView :=
  ⟨rfl, (updateTextPreview_no_preview startEditor (Or.inl rfl)).imp
    fun _ h => ⟨h.1, (h.2.1 rfl).1, (h.2.1 rfl).2⟩⟩

/-- C8 as stated fails: from the start editor, which has no selection, a
change of the font size runs `generateAndUpdate`, the unit triangle is
triangulated, and `updateTextPreview` leaves a rendered text that is not
empty. -/
theorem updateTextPreview_no_preview_counterexample :
    ({ (startEditor : TextEditor ℝ) with mFontSize := 14, mTriangulatedText := unitTriangleText }
      ).mSelectedIntersection = none ∧
    updateTextPreview
        { (startEditor : TextEditor ℝ) with mFontSize := 14, mTriangulatedText := unitTriangleText }
      = step startEditor (.fontSize 14) ∧
    ∃ ed', updateTextPreview
        { (startEditor : TextEditor ℝ) with mFontSize := 14, mTriangulatedText := unitTriangleText }
        = some ed' ∧
      ed'.mRenderedText = unitTriangleText ∧ ed'.mRenderedText ≠ [] := by
  refine ⟨rfl, ?_, _, updateTextPreview_none _ rfl, rfl, ?_⟩
  · have htri : triangulateText { (startEditor : TextEditor ℝ) with mFontSize := 14 }
        = some unitTriangleText := by
      simp [triangulateText, startEditor, unitTriangleFont, P_ASSERT]
    simp only [step, generateAndUpdate, htri, Option.some_bind]
  · simp [unitTriangleText]

/-! ## Commit, then clear -/

/-- A paint with rendered text and a selection: the command is executed on a
snapshot of the rendered text, then the rendered text and the preview are
cleared; everything else, the selection included, is kept. -/
theorem paintText_commit (ed : TextEditor ℝ) (sel : Nat)
    (hsel : ed.mSelectedIntersection = some sel) (hne : ed.mRenderedText ≠ []) :
    paintText ed = { ed with
      mRenderedText := []
      mApplication := { ed.mApplication with
        executed := ed.mApplication.executed ++
          [{ ray := { ed.mSelectedRay with
                      direction := -(ed.mApplication.geometry.triangleNormal sel) }
             text := ed.mRenderedText
             color := ed.mApplication.geometry.activeColorIndex }]
        modelView := ed.mApplication.modelView.resetPreview } } := by
  have he : ed.mRenderedText.isEmpty = false := by
    cases h : ed.mRenderedText with
    | nil => exact absurd h hne
    | cons _ _ => rfl
  simp only [paintText, enqueueSlowOperation, hsel, he, Bool.false_eq_true, if_false]

/-- A paint without rendered text changes nothing. -/
theorem paintText_idle (ed : TextEditor ℝ) (h : ed.mRenderedText = []) : paintText ed = ed := by
  simp only [paintText, h]
  cases ed.mSelectedIntersection <;> simp

/-- An event that does not rebuild the preview keeps an empty rendered text
and an empty preview. -/
theorem step_quiet (ed : TextEditor ℝ) (e : Event) (hq : ¬ regeneratesPreview ed e)
    (hr : ed.mRenderedText = []) (hp : ed.mApplication.modelView.previewEmpty) :
    ∃ ed', step ed e = some ed' ∧ ed'.mRenderedText = [] ∧
      ed'.mApplication.modelView.previewEmpty := by
  cases e with
  | mouseMove ray hit point => exact ⟨_, rfl, hr, hp⟩
  | mouseDown isLeft =>
    cases isLeft with
    | false => exact ⟨ed, rfl, hr, hp⟩
    | true =>
      have hc : ed.mCurrentIntersection.isSome = false := by
        cases h : ed.mCurrentIntersection.isSome with
        | false => rfl
        | true => exact absurd ⟨rfl, h⟩ hq
      exact ⟨ed, by simp [step, onModelViewMouseDown, hc], hr, hp⟩
  | loadFont path font => exact ⟨_, rfl, hr, hp⟩
  | fontSize value => exact absurd trivial hq
  | bezierSteps value => exact absurd trivial hq
  | text value =>
    have hc : ed.mSelectedIntersection.isSome = false := by
      cases h : ed.mSelectedIntersection.isSome with
      | false => rfl
      | true => exact absurd h hq
    exact ⟨{ ed with mText := value }, by simp [step, hc], hr, hp⟩
  | fontScale value => exact absurd trivial hq
  | textRotation value => exact absurd trivial hq
  | paint => exact ⟨ed, by simp [step, paintText_idle ed hr], hr, hp⟩

/-- A quiet run keeps an empty rendered text and an empty preview. -/
theorem run_quiet (events : List Event) (ed : TextEditor ℝ) (hq : staysQuiet ed events)
    (hr : ed.mRenderedText = []) (hp : ed.mApplication.modelView.previewEmpty) :
    ∃ ed', run ed events = some ed' ∧ ed'.mRenderedText = [] ∧
      ed'.mApplication.modelView.previewEmpty := by
  induction events generalizing ed with
  | nil => exact ⟨ed, rfl, hr, hp⟩
  | cons e es ih =>
    obtain ⟨ed1, h1, hr1, hp1⟩ := step_quiet ed e hq.1 hr hp
    obtain ⟨ed2, h2, hr2, hp2⟩ := ih ed1 (hq.2 ed1 h1) hr1 hp1
    exact ⟨ed2, by simp [run, h1, h2], hr2, hp2⟩

/-- C7, as amended: a paint with rendered text and a selection executes the
command on the rendered text and leaves the rendered text and the preview
buffer empty, the selection kept; they stay empty under every subsequent
sequence of steps none of which rebuilds the preview, that is, none of which
is a new selection or a parameter change calling `generateAndUpdate` or
`updateTextPreview`. -/
theorem commit_then_clear (ed : TextEditor ℝ) (sel : Nat)
    (hsel : ed.mSelectedIntersection = some sel) (hne : ed.mRenderedText ≠ []) :
    (paintText ed).mApplication.executed.map CmdPaintText.text
      = ed.mApplication.executed.map CmdPaintText.text ++ [ed.mRenderedText] ∧
    (paintText ed).mRenderedText = [] ∧
    (paintText ed).mApplication.modelView.previewEmpty ∧
    (paintText ed).mSelectedIntersection = some sel ∧
    (paintText ed).mTriangulatedText = ed.mTriangulatedText ∧
    ∀ events, staysQuiet (paintText ed) events →
      ∃ ed', run (paintText ed) events = some ed' ∧ ed'.mRenderedText = [] ∧
        ed'.mApplication.modelView.previewEmpty := by
  have hempty : (paintText ed).mApplication.modelView.previewEmpty := by
    rw [paintText_commit ed sel hsel hne]
    exact ⟨rfl, rfl, rfl, rfl⟩
  have hr : (paintText ed).mRenderedText = [] := by rw [paintText_commit ed sel hsel hne]
  refine ⟨?_, hr, hempty, ?_, ?_, fun events hq => run_quiet events _ hq hr hempty⟩
  · rw [paintText_commit ed sel hsel hne]; simp
  · rw [paintText_commit ed sel hsel hne]; exact hsel
  · rw [paintText_commit ed sel hsel hne]

theorem vertices_mapVertices_ne_nil {α : Type} (f : Vec3 α → Vec3 α) (text : Glyphs α)
    (h : vertices text ≠ []) : vertices (mapVertices f text) ≠ [] := by
  obtain ⟨v, hv⟩ := List.exists_mem_of_ne_nil _ h
  exact List.ne_nil_of_mem ((mem_vertices_mapVertices f text (f v)).mpr ⟨v, hv, rfl⟩)

theorem ne_nil_of_vertices_ne_nil {α : Type} (text : Glyphs α) (h : vertices text ≠ []) :
    text ≠ [] := by
  intro h0
  rw [h0] at h
  exact h rfl

/-- With a selection on a triangle whose normal is not zero and a
triangulated text that has a vertex, `updateTextPreview` returns with a
non-empty rendered text and a non-empty preview. -/
theorem updateTextPreview_rebuilds (ed : TextEditor ℝ) (sel : Nat)
    (hsel : ed.mSelectedIntersection = some sel)
    (hnormal : dot (-(ed.mApplication.geometry.triangleNormal sel))
      (-(ed.mApplication.geometry.triangleNormal sel)) ≠ 0)
    (hv : vertices ed.mTriangulatedText ≠ []) :
    ∃ ed', updateTextPreview ed = some ed' ∧ ed'.mRenderedText ≠ [] ∧
      ¬ ed'.mApplication.modelView.previewEmpty := by
  have hn := isNormalized_of_length_one (length_normalize hnormal)
  have hplaced : ∀ f : Vec3 ℝ → Vec3 ℝ,
      vertices (mapVertices f (rescaleText ed.mFontScale ed.mTriangulatedText)) ≠ [] := by
    intro f
    rw [rescaleText_eq_mapVertices]
    exact vertices_mapVertices_ne_nil _ _ (vertices_mapVertices_ne_nil _ _
      (vertices_mapVertices_ne_nil _ _ hv))
  refine ⟨_, updateTextPreview_eq ed sel _ _ hsel (ne_nil_of_vertices_ne_nil _ hv)
    (getPreviewOrigin_eq ed sel _ hsel) (getPlaneBaseVector_eq ed hn), ?_, ?_⟩
  · exact ne_nil_of_vertices_ne_nil _ (hplaced _)
  · intro hp
    have h1 := hp.1
    simp only [createPreviewMesh, ModelView.resetPreview, List.nil_append] at h1
    exact hplaced _ h1

theorem commit_then_clear_witness :
    (previewedEditor : TextEditor ℝ).mSelectedIntersection = some 0 ∧
    (previewedEditor : TextEditor ℝ).mRenderedText ≠ [] ∧
    staysQuiet (paintText (previewedEditor : TextEditor ℝ))
      [.paint, .mouseDown false, .loadFont "fonts/Other.ttf" "Other.ttf"] ∧
    ∃ ed', run (paintText (previewedEditor : TextEditor ℝ))
        [.paint, .mouseDown false, .loadFont "fonts/Other.ttf" "Other.ttf"] = some ed' ∧
      ed'.mRenderedText = [] ∧ ed'.mApplication.modelView.previewEmpty :=
  have hq : staysQuiet (paintText (previewedEditor : TextEditor ℝ))
      [.paint, .mouseDown false, .loadFont "fonts/Other.ttf" "Other.ttf"] := by
    simp [staysQuiet, regeneratesPreview]
  ⟨rfl, by simp [previewedEditor, createPreviewMesh, placedUnitTriangle], hq,
    (commit_then_clear previewedEditor 0 rfl
      (by simp [previewedEditor, createPreviewMesh, placedUnitTriangle])).2.2.2.2.2 _ hq⟩

/-- The sample run: from the start editor, a mouse move onto triangle 0 and
a left mouse-down give the previewed editor. -/
theorem run_start_previewed :
    run (startEditor : TextEditor ℝ)
      [.mouseMove sampleRay (some 0) ⟨0, 0, 0⟩, .mouseDown true] = some previewedEditor := by
  have htri : triangulateText (pickedEditor : TextEditor ℝ) = some unitTriangleText := by
    simp [triangulateText, pickedEditor, startEditor, unitTriangleFont, P_ASSERT]
  have hgen : generateAndUpdate
      { (pickedEditor : TextEditor ℝ) with mTriangulatedText := [] } = some previewedEditor := by
    have htri0 : triangulateText { (pickedEditor : TextEditor ℝ) with mTriangulatedText := [] }
        = some unitTriangleText := htri
    simp only [generateAndUpdate, htri0, Option.bind]
    exact (updateTextPreview_scenario pickedEditor 0 rfl rfl rfl pickedEditor_dist rfl rfl rfl)
  have h1 : step (startEditor : TextEditor ℝ) (.mouseMove sampleRay (some 0) ⟨0, 0, 0⟩)
      = some (onModelViewMouseMove startEditor sampleRay (some 0) ⟨0, 0, 0⟩) := rfl
  have h2 : step (onModelViewMouseMove (startEditor : TextEditor ℝ) sampleRay (some 0) ⟨0, 0, 0⟩)
      (.mouseDown true) = some previewedEditor := hgen
  simp only [run, h1, Option.some_bind, h2]

/-- C7 as stated fails: after the sample run and a successful paint, the
rendered text and the preview are empty; the next step, a change of the text
rotation, is not a new selection, and after it the rendered text and the
preview are not empty. -/
theorem commit_then_clear_counterexample :
    run (startEditor : TextEditor ℝ)
      [.mouseMove sampleRay (some 0) ⟨0, 0, 0⟩, .mouseDown true, .paint]
      = some committedEditor ∧
    (committedEditor : TextEditor ℝ).mApplication.executed.map CmdPaintText.text
      = [placedUnitTriangle] ∧
    (committedEditor : TextEditor ℝ).mRenderedText = [] ∧
    (committedEditor : TextEditor ℝ).mApplication.modelView.previewEmpty ∧
    ¬ makesSelection committedEditor (.textRotation 90) ∧
    ∃ ed', step (committedEditor : TextEditor ℝ) (.textRotation 90) = some ed' ∧
      ed'.mRenderedText ≠ [] ∧ ¬ ed'.mApplication.modelView.previewEmpty := by
  have hc := paintText_commit (previewedEditor : TextEditor ℝ) 0 rfl
    (by simp [previewedEditor, createPreviewMesh, placedUnitTriangle])
  have hrun : run (startEditor : TextEditor ℝ)
      [.mouseMove sampleRay (some 0) ⟨0, 0, 0⟩, .mouseDown true, .paint]
      = some committedEditor := by
    have h1 : step (startEditor : TextEditor ℝ) (.mouseMove sampleRay (some 0) ⟨0, 0, 0⟩)
        = some (onModelViewMouseMove startEditor sampleRay (some 0) ⟨0, 0, 0⟩) := rfl
    have h := run_start_previewed
    simp only [run, h1, Option.some_bind, Option.bind_eq_some] at h ⊢
    obtain ⟨ed2, h2, h3⟩ := h
    cases h3
    exact ⟨_, h2, _, rfl, rfl⟩
  refine ⟨hrun, ?_, ?_, ?_, fun h => h, ?_⟩
  · rw [committedEditor, hc]; rfl
  · rw [committedEditor, hc]
  · rw [committedEditor, hc]; exact ⟨rfl, rfl, rfl, rfl⟩
  · have hsel : ({ (committedEditor : TextEditor ℝ) with mTextRotation := 90 }
        ).mSelectedIntersection = some 0 := by rw [committedEditor, hc]; rfl
    refine updateTextPreview_rebuilds _ 0 hsel ?_ ?_
    · simp only [committedEditor, hc]
      simp [previewedEditor, createPreviewMesh, pickedEditor, startEditor, dot, Vec3.neg_def]
    · simp only [committedEditor, hc]
      simp [previewedEditor, createPreviewMesh, pickedEditor, startEditor, unitTriangleText,
        vertices, Tri.corners]

end Pepr3d
